import Mathlib

/-!
Verification of the quiz-system ingestion/generation pipeline
(`app/services/rag.py`, `app/quiz.py`, `app/extract.py`,
`app/services/tasks.py`, `app/jobs.py`) against its natural-language
specification.  Python strings are modelled as `List Char`, JSON values as
an inductive `JVal` with integral and rational numbers, machine behaviour
(exceptions) as `Except`.
-/

namespace QuizSys

/-! ## Python string helpers -/

/-- The ASCII whitespace characters stripped by Python's `str.strip()`
(the Unicode-only space characters are outside the model's scope). -/
def isPySpace (c : Char) : Bool :=
  c = ' ' || c = '\t' || c = '\n' || c = '\r' || c = '\x0b' || c = '\x0c'

/-- Python `s.strip()`: drop whitespace from both ends. -/
def pyStrip (l : List Char) : List Char :=
  List.rdropWhile isPySpace (List.dropWhile isPySpace l)

/-- Python slice `s[i:k]` (for `0 ≤ i`, `0 ≤ k`). -/
def pySlice (s : List Char) (i k : Nat) : List Char :=
  (s.take k).drop i

/-- Python `s.rfind(c, start, stop)` for a single-character needle:
largest index `idx` with `start ≤ idx < min stop (len s)` and `s[idx] = c`,
as an `Option` (`none` models the `-1` result). -/
def pyRfindChar (s : List Char) (c : Char) (start stop : Nat) : Option Nat :=
  (((List.range (min stop s.length)).filter
      (fun idx => decide (start ≤ idx) && decide (s.getD idx ' ' = c)))).getLast?

theorem pyStrip_length_le (l : List Char) : (pyStrip l).length ≤ l.length := by
  unfold pyStrip
  calc (List.rdropWhile isPySpace (List.dropWhile isPySpace l)).length
      ≤ (List.dropWhile isPySpace l).length :=
        (List.rdropWhile_prefix _ _).sublist.length_le
    _ ≤ l.length := (List.dropWhile_suffix _).sublist.length_le

theorem pyStrip_idem (l : List Char) : pyStrip (pyStrip l) = pyStrip l := by
  unfold pyStrip
  set D := List.dropWhile isPySpace l with hD
  set X := List.rdropWhile isPySpace D with hX
  clear_value D X
  have hdw : List.dropWhile isPySpace X = X := by
    rw [List.dropWhile_eq_self_iff]
    intro hl
    have hXD : X <+: D := by rw [hX]; exact List.rdropWhile_prefix _ _
    obtain ⟨t, ht⟩ := hXD
    rcases X with _ | ⟨a, as⟩
    · simp at hl
    · subst ht
      rcases hcase : List.dropWhile isPySpace l with _ | ⟨b, bs⟩
      · rw [hcase] at hD
        simp at hD
      · have hlen0 : 0 < (List.dropWhile isPySpace l).length := by rw [hcase]; simp
        have hnb := List.dropWhile_get_zero_not isPySpace l hlen0
        have hgb : (List.dropWhile isPySpace l).get ⟨0, hlen0⟩ = b := by
          rw [List.get_of_eq hcase]
          simp
        rw [hgb] at hnb
        have hab : a = b := by
          rw [hcase] at hD
          have := congrArg List.head? hD
          simpa using this
        simpa [hab] using hnb
  rw [hdw, hX, List.rdropWhile_idempotent]

theorem pySlice_length_le (s : List Char) (i k : Nat) :
    (pySlice s i k).length ≤ k - i := by
  simp only [pySlice, List.length_drop, List.length_take]
  omega

theorem pyRfindChar_bounds {s : List Char} {c : Char} {start stop k : Nat}
    (h : pyRfindChar s c start stop = some k) :
    start ≤ k ∧ k < stop ∧ k < s.length := by
  unfold pyRfindChar at h
  have hmem : k ∈ (List.range (min stop s.length)).filter
      (fun idx => decide (start ≤ idx) && decide (s.getD idx ' ' = c)) := by
    obtain ⟨hne, heq⟩ := List.mem_getLast?_eq_getLast (Option.mem_def.mpr h)
    rw [heq]
    exact List.getLast_mem hne
  have hrange := List.mem_filter.mp hmem
  have h1 := List.mem_range.mp hrange.1
  have h2 := hrange.2
  simp only [Bool.and_eq_true, decide_eq_true_eq] at h2
  omega

/-! ## `_chunk_text` (`app/services/rag.py`)

```python
def _chunk_text(text, max_chars=1200, overlap=200):
    s = (text or "").strip()
    if not s: return []
    chunks, i, n = [], 0, len(s)
    while i < n:
        j = min(i + max_chars, n)
        k = s.rfind("\n", i + 200, j)
        if k == -1: k = s.rfind(" ", i + 200, j)
        if k == -1: k = j
        chunks.append(s[i:k].strip())
        i = max(k - overlap, i + 1)
    return [c for c in chunks if c]
```
-/

/-- The cut position `k` chosen for the window starting at `i`
(the `200` is a literal in the source, independent of `overlap`). -/
def chunkStep (s : List Char) (maxChars i : Nat) : Nat :=
  let j := min (i + maxChars) s.length
  match pyRfindChar s '\n' (i + 200) j with
  | some k => k
  | none =>
    match pyRfindChar s ' ' (i + 200) j with
    | some k => k
    | none => j

/-- The `while i < n` loop of `_chunk_text`, accumulating the appended
(pre-filter) chunks; the next start is `max (k - overlap) (i + 1)`. -/
def chunkAux (s : List Char) (maxChars overlap i : Nat) : List (List Char) :=
  if h : i < s.length then
    pyStrip (pySlice s i (chunkStep s maxChars i)) ::
      chunkAux s maxChars overlap (max (chunkStep s maxChars i - overlap) (i + 1))
  else []
termination_by s.length - i
decreasing_by
  have h1 : i + 1 ≤ max (chunkStep s maxChars i - overlap) (i + 1) := Nat.le_max_right _ _
  omega

/-- `_chunk_text`. -/
def chunkText (text : List Char) (maxChars : Nat := 1200) (overlap : Nat := 200) :
    List (List Char) :=
  let s := pyStrip text
  if s = [] then []
  else (chunkAux s maxChars overlap 0).filter (fun c => !c.isEmpty)

theorem chunkStep_le (s : List Char) (maxChars i : Nat) :
    chunkStep s maxChars i ≤ min (i + maxChars) s.length := by
  unfold chunkStep
  cases hn : pyRfindChar s '\n' (i + 200) (min (i + maxChars) s.length) with
  | some k =>
    have := pyRfindChar_bounds hn
    simp only [hn]
    omega
  | none =>
    cases hs : pyRfindChar s ' ' (i + 200) (min (i + maxChars) s.length) with
    | some k =>
      have := pyRfindChar_bounds hs
      simp only [hn, hs]
      omega
    | none => simp only [hn, hs]; omega

theorem chunkAux_mem {s : List Char} {maxChars overlap : Nat} :
    ∀ {i : Nat} {c : List Char}, c ∈ chunkAux s maxChars overlap i →
    ∃ i' k, c = pyStrip (pySlice s i' k) ∧ k ≤ i' + maxChars := by
  have H : ∀ m i (c : List Char), s.length - i ≤ m →
      c ∈ chunkAux s maxChars overlap i →
      ∃ i' k, c = pyStrip (pySlice s i' k) ∧ k ≤ i' + maxChars := by
    intro m
    induction m with
    | zero =>
      intro i c hm h
      rw [chunkAux, dif_neg (by omega)] at h
      simp at h
    | succ m ih =>
      intro i c hm h
      by_cases hi : i < s.length
      · rw [chunkAux, dif_pos hi] at h
        rcases List.mem_cons.mp h with hc | hc
        · refine ⟨i, chunkStep s maxChars i, hc, ?_⟩
          have := chunkStep_le s maxChars i
          omega
        · refine ih (max (chunkStep s maxChars i - overlap) (i + 1)) c ?_ hc
          have h1 : i + 1 ≤ max (chunkStep s maxChars i - overlap) (i + 1) :=
            Nat.le_max_right _ _
          omega
      · rw [chunkAux, dif_neg hi] at h
        simp at h
  exact fun {i c} h => H (s.length - i) i c le_rfl h

theorem chunkAux_length_le (s : List Char) (maxChars overlap i : Nat) :
    (chunkAux s maxChars overlap i).length ≤ s.length - i := by
  have H : ∀ m i, s.length - i ≤ m →
      (chunkAux s maxChars overlap i).length ≤ s.length - i := by
    intro m
    induction m with
    | zero =>
      intro i hm
      rw [chunkAux, dif_neg (by omega)]
      simp
    | succ m ih =>
      intro i hm
      by_cases hi : i < s.length
      · rw [chunkAux, dif_pos hi]
        simp only [List.length_cons]
        have h1 : i + 1 ≤ max (chunkStep s maxChars i - overlap) (i + 1) :=
          Nat.le_max_right _ _
        have h2 := ih (max (chunkStep s maxChars i - overlap) (i + 1)) (by omega)
        omega
      · rw [chunkAux, dif_neg hi]
        simp
  exact H (s.length - i) i le_rfl

/-- C6: every segment produced by `_chunk_text` with the default parameters
has length at most 1200, is nonempty, equals its own strip
(not whitespace-only), and the function is deterministic. -/
theorem chunkText_default_segments (text : List Char) :
    (∀ t', t' = text → chunkText t' 1200 200 = chunkText text 1200 200) ∧
    ∀ c ∈ chunkText text 1200 200,
      c.length ≤ 1200 ∧ c ≠ [] ∧ pyStrip c = c := by
  refine ⟨fun t' ht => by rw [ht], fun c hc => ?_⟩
  unfold chunkText at hc
  by_cases hs : pyStrip text = []
  · simp [hs] at hc
  · rw [if_neg hs] at hc
    have hf := List.mem_filter.mp hc
    obtain ⟨i', k, hceq, hk⟩ := chunkAux_mem hf.1
    have hne : c ≠ [] := by
      intro h
      rw [h] at hf
      simp [List.isEmpty] at hf
    refine ⟨?_, hne, ?_⟩
    · rw [hceq]
      calc (pyStrip (pySlice (pyStrip text) i' k)).length
          ≤ (pySlice (pyStrip text) i' k).length := pyStrip_length_le _
        _ ≤ k - i' := pySlice_length_le _ _ _
        _ ≤ 1200 := by omega
    · rw [hceq, pyStrip_idem]

/-- C8: `_chunk_text` terminates — the loop body runs at most `n` times
(each iteration appends exactly one pre-filter chunk, so the iteration
count is the length of `chunkAux`), and the returned list is no longer
than the input. -/
theorem chunkText_terminates (text : List Char) :
    (chunkAux (pyStrip text) 1200 200 0).length ≤ (pyStrip text).length ∧
    (chunkText text 1200 200).length ≤ text.length := by
  constructor
  · simpa using chunkAux_length_le (pyStrip text) 1200 200 0
  · unfold chunkText
    by_cases hs : pyStrip text = []
    · simp [hs]
    · rw [if_neg hs]
      calc ((chunkAux (pyStrip text) 1200 200 0).filter _).length
          ≤ (chunkAux (pyStrip text) 1200 200 0).length := List.length_filter_le _ _
        _ ≤ (pyStrip text).length - 0 := chunkAux_length_le _ _ _ _
        _ ≤ text.length := by
            have := pyStrip_length_le text
            omega

theorem chunkText_eval_hi : chunkText "  hi  ".data 1200 200 = ["hi".data, "i".data] := by
  have hs : pyStrip "  hi  ".data = "hi".data := by decide
  have hc0 : chunkStep "hi".data 1200 0 = 2 := by decide
  have hc1 : chunkStep "hi".data 1200 1 = 2 := by decide
  have e2 : chunkAux "hi".data 1200 200 2 = [] := by
    rw [chunkAux, dif_neg (by decide)]
  have e1 : chunkAux "hi".data 1200 200 1 = ["i".data] := by
    rw [chunkAux, dif_pos (by decide), hc1]
    have hm : max (2 - 200) (1 + 1) = 2 := by decide
    rw [hm, e2]
    decide
  have e0 : chunkAux "hi".data 1200 200 0 = ["hi".data, "i".data] := by
    rw [chunkAux, dif_pos (by decide), hc0]
    have hm : max (2 - 200) (0 + 1) = 1 := by decide
    rw [hm, e1]
    decide
  unfold chunkText
  simp only [hs]
  rw [if_neg (by decide), e0]
  decide

/-- C6 witness: the segment properties at a concrete input. -/
theorem c6_witness :
    chunkText "  hi  ".data 1200 200 = chunkText "  hi  ".data 1200 200 ∧
    ("i".data.length ≤ 1200 ∧ "i".data ≠ [] ∧ pyStrip "i".data = "i".data) :=
  ⟨(chunkText_default_segments "  hi  ".data).1 "  hi  ".data rfl,
   (chunkText_default_segments "  hi  ".data).2 "i".data (by rw [chunkText_eval_hi]; decide)⟩

/-! ## JSON values (`json.loads` results / Python objects)

`JVal` models the values flowing through `_normalize_quiz` and
`evaluate_short_answer`: JSON null/booleans/numbers/strings/arrays/objects.
Numbers are split into integral (`int`) and rational (`num`, for floats);
objects are association lists with the first binding of a key visible. -/

inductive JVal where
  | null
  | bool (b : Bool)
  | int (n : Int)
  | num (q : ℚ)
  | str (s : String)
  | list (xs : List JVal)
  | dict (kvs : List (String × JVal))
deriving Repr

mutual
def jeq : JVal → JVal → Bool
  | .null, .null => true
  | .bool x, .bool y => x == y
  | .int x, .int y => x == y
  | .num x, .num y => x == y
  | .str x, .str y => x == y
  | .list xs, .list ys => jeqList xs ys
  | .dict xs, .dict ys => jeqDict xs ys
  | _, _ => false
def jeqList : List JVal → List JVal → Bool
  | [], [] => true
  | x :: xs, y :: ys => jeq x y && jeqList xs ys
  | _, _ => false
def jeqDict : List (String × JVal) → List (String × JVal) → Bool
  | [], [] => true
  | x :: xs, y :: ys => (x.1 == y.1 && jeq x.2 y.2) && jeqDict xs ys
  | _, _ => false
end

mutual
theorem jeq_iff : (a b : JVal) → (jeq a b = true ↔ a = b)
  | a, b => by
    cases a <;> cases b <;> rw [jeq.eq_def] <;> try simp
    case list.list xs ys =>
      simp [jeqList_iff xs ys]
    case dict.dict xs ys =>
      simp [jeqDict_iff xs ys]
theorem jeqList_iff : (xs ys : List JVal) → (jeqList xs ys = true ↔ xs = ys)
  | [], [] => by simp [jeqList]
  | [], _ :: _ => by simp [jeqList]
  | _ :: _, [] => by simp [jeqList]
  | x :: xs, y :: ys => by
    rw [jeqList]
    simp [jeq_iff x y, jeqList_iff xs ys]
theorem jeqDict_iff : (xs ys : List (String × JVal)) → (jeqDict xs ys = true ↔ xs = ys)
  | [], [] => by simp [jeqDict]
  | [], _ :: _ => by simp [jeqDict]
  | _ :: _, [] => by simp [jeqDict]
  | x :: xs, y :: ys => by
    rw [jeqDict]
    have h2 := jeq_iff x.2 y.2
    have h3 := jeqDict_iff xs ys
    constructor
    · intro h
      simp only [Bool.and_eq_true, beq_iff_eq] at h
      obtain ⟨⟨ha, hb⟩, hc⟩ := h
      have e2 := h2.mp hb
      have e3 := h3.mp hc
      cases x; cases y
      simp_all
    · intro h
      cases h
      simp only [Bool.and_eq_true, beq_iff_eq]
      exact ⟨⟨by simp, h2.mpr rfl⟩, h3.mpr rfl⟩
end

instance : DecidableEq JVal := fun a b =>
  decidable_of_iff (jeq a b = true) (jeq_iff a b)

mutual
/-- Normalize Python booleans into numbers (`True == 1`, `False == 0`),
recursively; the kernel of this map is Python `==` on the modelled values. -/
def normNum : JVal → JVal
  | .null => .null
  | .bool b => .num (if b then 1 else 0)
  | .int n => .num (n : ℚ)
  | .num q => .num q
  | .str s => .str s
  | .list xs => .list (normNumList xs)
  | .dict kvs => .dict (normNumDict kvs)
def normNumList : List JVal → List JVal
  | [] => []
  | x :: xs => normNum x :: normNumList xs
def normNumDict : List (String × JVal) → List (String × JVal)
  | [] => []
  | p :: ps => (p.1, normNum p.2) :: normNumDict ps
end

/-- Python `==` on modelled values (structural equality up to the
bool-as-number coercion). -/
def pyEq (a b : JVal) : Bool := decide (normNum a = normNum b)

/-- Python `x in l` for a list `l`. -/
def pyMem (x : JVal) (l : List JVal) : Bool := l.any (fun y => pyEq x y)

theorem pyEq_refl (a : JVal) : pyEq a a = true := by simp [pyEq]

theorem pyMem_of_mem {x : JVal} {l : List JVal} (h : x ∈ l) : pyMem x l = true := by
  simp only [pyMem, List.any_eq_true]
  exact ⟨x, h, pyEq_refl x⟩

/-- Python truthiness (`bool(x)`). -/
def truthy : JVal → Bool
  | .null => false
  | .bool b => b
  | .int n => decide (n ≠ 0)
  | .num q => decide (q ≠ 0)
  | .str s => !s.isEmpty
  | .list xs => !xs.isEmpty
  | .dict kvs => !kvs.isEmpty

def isStrV : JVal → Bool
  | .str _ => true
  | _ => false

/-- Python `isinstance(x, int)` (booleans are ints in Python). -/
def isIntLikeV : JVal → Bool
  | .int _ => true
  | .bool _ => true
  | _ => false

def intLikeVal : JVal → Int
  | .int n => n
  | .bool b => if b then 1 else 0
  | _ => 0

/-- First binding of `k` in an object (Python dicts bind each key once). -/
def jget (kvs : List (String × JVal)) (k : String) : Option JVal :=
  (kvs.find? (fun p => p.1 == k)).map (fun p => p.2)

/-- Python exception kinds raised by the modelled code. -/
inductive PyErr where
  | valueError (msg : String)
  | typeError (msg : String)
  | attrError (msg : String)
  | keyError (msg : String)
deriving DecidableEq, Repr

/-- Digits-only parse (`int(...)` body after sign). -/
def digitsToNat (ds : List Char) : Option Nat :=
  if ds.isEmpty then none
  else if ds.all Char.isDigit then
    some (ds.foldl (fun a c => a * 10 + (c.toNat - 48)) 0)
  else none

/-- Python `int(s)` for strings: optional whitespace, optional sign, digits
(underscore grouping and other bases are outside the model's scope). -/
def parseIntStr (s : String) : Option Int :=
  match pyStrip s.data with
  | '-' :: ds => (digitsToNat ds).map (fun n => -(n : Int))
  | '+' :: ds => (digitsToNat ds).map (fun n => (n : Int))
  | ds => (digitsToNat ds).map (fun n => (n : Int))

def parseFloatCore (ds : List Char) : Option ℚ :=
  let intPart := ds.takeWhile (fun c => c ≠ '.')
  let rest := ds.dropWhile (fun c => c ≠ '.')
  match rest with
  | [] => (digitsToNat intPart).map (fun n => (n : ℚ))
  | _ :: frac =>
    if frac.any (fun c => c = '.') then none
    else if intPart.isEmpty && frac.isEmpty then none
    else if intPart.all Char.isDigit && frac.all Char.isDigit then
      some ((intPart.foldl (fun a c => a * 10 + (c.toNat - 48)) 0 : ℚ) +
        (frac.foldl (fun a c => a * 10 + (c.toNat - 48)) 0 : ℚ) / ((10 : ℚ) ^ frac.length))
    else none

/-- Python `float(s)` for strings: plain decimal literals with optional sign
(exponents and the inf/nan spellings are outside the model's scope). -/
def parseFloatStr (s : String) : Option ℚ :=
  match pyStrip s.data with
  | '-' :: ds => (parseFloatCore ds).map (fun q => -q)
  | '+' :: ds => parseFloatCore ds
  | ds => parseFloatCore ds

/-- Truncation toward zero, as Python `int(float)`. -/
def ratTrunc (q : ℚ) : Int := if 0 ≤ q then ⌊q⌋ else ⌈q⌉

/-- Python `int(x)`: raises `TypeError` on null/containers and `ValueError`
on non-numeric strings. -/
def pyInt : JVal → Except PyErr Int
  | .int n => .ok n
  | .bool b => .ok (if b then 1 else 0)
  | .num q => .ok (ratTrunc q)
  | .str s =>
    match parseIntStr s with
    | some n => .ok n
    | none => .error (.valueError "invalid literal for int")
  | _ => .error (.typeError "int argument must be a number or string")

/-- Python `float(x)`. -/
def pyFloat : JVal → Except PyErr ℚ
  | .int n => .ok (n : ℚ)
  | .bool b => .ok (if b then 1 else 0)
  | .num q => .ok q
  | .str s =>
    match parseFloatStr s with
    | some q => .ok q
    | none => .error (.valueError "could not convert string to float")
  | _ => .error (.typeError "float argument must be a number or string")

/-- Python `str(x)` (container reprs are abbreviated; only scalars are
rendered precisely, which is all the claims exercise). -/
def pyStr : JVal → String
  | .null => "None"
  | .bool b => if b then "True" else "False"
  | .int n => toString n
  | .num q => toString q
  | .str s => s
  | .list _ => "[...]"
  | .dict _ => "\x7b...\x7d"

def pyStripStr (s : String) : String := String.mk (pyStrip s.data)

/-- Python `(v or "").strip()`: empty for falsy `v`, strip for strings,
`AttributeError` for truthy non-strings. -/
def pyStripOrEmpty (v : JVal) : Except PyErr String :=
  if truthy v then
    match v with
    | .str s => .ok (pyStripStr s)
    | _ => .error (.attrError "object has no strip attribute")
  else .ok ""

/-! ## `_to_string_answers` and `_normalize_quiz` (`app/quiz.py`)

Sequence operations (`len`, slicing, iteration, `in`) are modelled on JSON
lists; the Python coincidence that a `str` also supports them is outside
the model's scope (such inputs are mapped to a `TypeError`). -/

/-- `idx_to_text`: `options[idx] if 0 <= idx < len(options) else None`. -/
def idxToText (options : List JVal) (x : Int) : Option JVal :=
  if 0 ≤ x then options.get? x.toNat else none

/-- `_to_string_answers(qtype, options, candidate)`. -/
def toStringAnswers (qtype options candidate : JVal) : Except PyErr (List JVal) :=
  if pyEq qtype (.str "answer_short_question") then .ok []
  else
    match candidate with
    | .list xs =>
      if xs.all isStrV then
        match options with
        | .list os => .ok (os.filter (fun opt => pyMem opt xs))
        | _ => .error (.typeError "argument is not iterable")
      else if xs.all isIntLikeV then
        match options with
        | .list os => .ok (xs.filterMap (fun x => idxToText os (intLikeVal x)))
        | _ => .error (.typeError "object has no len")
      else .ok []
    | .str s =>
      match options with
      | .list os => .ok (if pyMem (.str s) os then [.str s] else [])
      | _ => .error (.typeError "argument is not a container")
    | .bool b =>
      .ok (if pyEq qtype (.str "true_false") then
        [.str (if b then "True" else "False")] else [])
    | _ => .ok []

/-- `q.get("options") or (["True","False"] if qtype == "true_false" else [])`. -/
def defaultOptions (qtype optv : JVal) : JVal :=
  if truthy optv then optv
  else if pyEq qtype (.str "true_false") then .list [.str "True", .str "False"]
  else .list []

/-- `[f"Option {i}" for i in range(1, needed + 1)]`. -/
def padOptionsList (needed : Nat) : List JVal :=
  (List.range needed).map (fun j => .str ("Option " ++ toString (j + 1)))

/-- The per-type option shaping block of `_normalize_quiz`. -/
def shapeOptions (qtype options : JVal) : Except PyErr JVal :=
  if pyEq qtype (.str "mcq_single") then
    match options with
    | .list os =>
      .ok (.list (if os.length < 4 then os ++ padOptionsList (4 - os.length) else os.take 4))
    | _ => .error (.typeError "object has no len")
  else if pyEq qtype (.str "mcq_multi") then
    match options with
    | .list os =>
      .ok (.list (if os.length < 3 then os ++ padOptionsList (3 - os.length)
        else if 7 < os.length then os.take 7 else os))
    | _ => .error (.typeError "object has no len")
  else if pyEq qtype (.str "true_false") then .ok (.list [.str "True", .str "False"])
  else if pyEq qtype (.str "answer_short_question") then .ok (.list [])
  else .ok options

/-- The `for opt in options: ...` padding loop of the `mcq_multi`
enforcement (append an option not yet present, stop once two are held). -/
def padTo2 : List JVal → List JVal → List JVal
  | [], present => present
  | opt :: rest, present =>
    let present1 := if pyMem opt present then present else present ++ [opt]
    if 2 ≤ present1.length then present1 else padTo2 rest present1

/-- The per-type `correctAnswers` enforcement block of `_normalize_quiz`. -/
def enforceAnswers (qtype options : JVal) (correct0 : List JVal) : List JVal :=
  if pyEq qtype (.str "mcq_single") then
    match options with
    | .list [] => correct0.take 1
    | .list (o :: _) => if correct0.isEmpty then [o] else correct0.take 1
    | _ => correct0.take 1
  else if pyEq qtype (.str "mcq_multi") then
    match options with
    | .list os =>
      let f := os.filter (fun opt => pyMem opt correct0)
      let p := if f.length < 2 then padTo2 os f else f
      if 4 < p.length then p.take 4 else p
    | _ => correct0
  else if pyEq qtype (.str "true_false") then
    match correct0 with
    | [.str s] => if s = "True" then [.str "True"]
        else if s = "False" then [.str "False"] else [.str "False"]
    | _ => [.str "False"]
  else if pyEq qtype (.str "answer_short_question") then []
  else correct0

/-- One element of the citation-normalizing comprehension: kept elements are
dicts with a `source` key; `int(c.get("chunk", 0))` may raise. -/
def normCitation1 (c : JVal) : Except PyErr (Option (String × Int)) :=
  match c with
  | .dict kvs =>
    match jget kvs "source" with
    | some srcv => do
      let n ← pyInt ((jget kvs "chunk").getD (.int 0))
      .ok (some (pyStr srcv, n))
    | none => .ok none
  | _ => .ok none

/-- The citation normalization block of `_normalize_quiz`. -/
def normCitations (v : JVal) : Except PyErr (List (String × Int)) :=
  Except.map (fun outs => outs.filterMap id)
    (((if truthy v then (match v with | .list xs => xs | _ => []) else [])).mapM normCitation1)

/-- The synthesized rubric used when the generator omitted one. -/
def fallbackRubric : String :=
  "Answer concisely using facts from the cited context. Mention the key terms listed in keywords; do not invent facts."

/-- The grading normalization block of `_normalize_quiz`. -/
def normGrading (qtype gv : JVal) : Except PyErr JVal :=
  let g := if truthy gv then gv else .dict []
  if pyEq qtype (.str "answer_short_question") then
    match g with
    | .dict kvs => do
      let rubric0 ← pyStripOrEmpty ((jget kvs "rubric").getD .null)
      let kw0 := (jget kvs "keywords").getD .null
      let kwl ←
        if truthy kw0 then
          match kw0 with
          | .list xs => Except.ok xs
          | _ => Except.error (.typeError "argument is not iterable")
        else Except.ok ([] : List JVal)
      let keywords := (kwl.map (fun x => pyStripStr (pyStr x))).filter (fun s => !s.isEmpty)
      let maxCharsV := (jget kvs "maxChars").getD .null
      let rubric := if rubric0.isEmpty then fallbackRubric else rubric0
      let base := [("rubric", JVal.str rubric),
        ("keywords", JVal.list (keywords.map JVal.str))]
      .ok (.dict (if isIntLikeV maxCharsV && decide (0 < intLikeVal maxCharsV)
        then base ++ [("maxChars", maxCharsV)] else base))
    | _ => .error (.attrError "object has no get attribute")
  else
    .ok (match g with | .dict kvs => .dict kvs | _ => .dict [])

/-- `_difficulty_from_level`. -/
def difficultyFromLevel (level : Int) : String :=
  if level ≤ 5 then "easy" else if level ≤ 7 then "medium" else "hard"

/-- A normalized question as emitted by `_normalize_quiz`. -/
structure NQuestion where
  qid : JVal
  qtype : JVal
  level : Int
  difficulty : String
  question : String
  options : JVal
  correctAnswers : List JVal
  explanation : String
  citations : List (String × Int)
  grading : JVal
deriving DecidableEq, Repr

/-- The loop body of `_normalize_quiz` for the `i`-th question (1-based). -/
def normQuestion (i : Nat) (q : JVal) : Except PyErr NQuestion :=
  match q with
  | .dict kvs => do
    let qidv := (jget kvs "id").getD .null
    let qid := if truthy qidv then qidv else .str ("q" ++ toString i)
    let qtype := (jget kvs "type").getD .null
    let lv ← pyInt ((jget kvs "level").getD (.int 5))
    let level : Int := if lv < 1 then 1 else if 10 < lv then 10 else lv
    let question ← pyStripOrEmpty ((jget kvs "question").getD .null)
    let options ← shapeOptions qtype (defaultOptions qtype ((jget kvs "options").getD .null))
    let cand0 := (jget kvs "correctAnswers").getD .null
    let cand := match cand0 with | .null => (jget kvs "answer").getD .null | _ => cand0
    let correct0 ← toStringAnswers qtype options cand
    let explanation ← pyStripOrEmpty ((jget kvs "explanation").getD .null)
    let citations ← normCitations ((jget kvs "citations").getD .null)
    let grading ← normGrading qtype ((jget kvs "grading").getD .null)
    .ok { qid, qtype, level, difficulty := difficultyFromLevel level, question,
          options, correctAnswers := enforceAnswers qtype options correct0,
          explanation, citations, grading }
  | _ => .error (.attrError "object has no get attribute")

/-- A normalized quiz. -/
structure NQuiz where
  title : JVal
  questions : List NQuestion
deriving DecidableEq, Repr

/-- `_normalize_quiz(data)`. -/
def normalizeQuiz (data : JVal) : Except PyErr NQuiz :=
  match data with
  | .dict kvs => do
    let tv := (jget kvs "title").getD .null
    let title := if truthy tv then tv else .str "Quiz"
    let qv := (jget kvs "questions").getD .null
    let qs0 := if truthy qv then qv else .list []
    match qs0 with
    | .list qs => do
      let out ← (List.enumFrom 1 qs).mapM (fun p => normQuestion p.1 p.2)
      .ok { title, questions := out }
    | _ => .error (.typeError "argument is not iterable")
  | _ => .error (.attrError "object has no get attribute")

/-- The tail of `generate_quiz_from_chunks`: `resp = none` models a body
that `json.loads` rejects (the `except` branch substitutes the empty-quiz
dict); `resp = some data` a parsed JSON body.  Normalization always runs. -/
def generateQuizResult (resp : Option JVal) : Except PyErr NQuiz :=
  match resp with
  | none => normalizeQuiz (.dict [("title", .str "Quiz"), ("questions", .list [])])
  | some data => normalizeQuiz data

/-! ## Support lemmas for the normalization theorems -/

theorem exbind_ok {ε α β : Type} {a : Except ε α} {f : α → Except ε β} {b : β} :
    (a >>= f = Except.ok b) ↔ ∃ x, a = .ok x ∧ f x = .ok b := by
  cases a <;> simp [Bind.bind, Except.bind]

theorem mapM_ok_mem {ε α β : Type} {f : α → Except ε β} :
    ∀ {l : List α} {out : List β}, l.mapM f = .ok out →
      ∀ y ∈ out, ∃ x ∈ l, f x = .ok y := by
  intro l
  induction l with
  | nil =>
    intro out h y hy
    simp only [List.mapM_nil, pure, Except.pure, Except.ok.injEq] at h
    subst h
    simp at hy
  | cons a t ih =>
    intro out h y hy
    simp only [List.mapM_cons] at h
    rw [exbind_ok] at h
    obtain ⟨b, hb, h⟩ := h
    rw [exbind_ok] at h
    obtain ⟨bs, hbs, h⟩ := h
    simp only [pure, Except.pure, Except.ok.injEq] at h
    subst h
    rcases List.mem_cons.mp hy with hy | hy
    · exact ⟨a, List.mem_cons_self a t, hy ▸ hb⟩
    · obtain ⟨x, hx, hfx⟩ := ih hbs y hy
      exact ⟨x, List.mem_cons_of_mem a hx, hfx⟩

instance {ε α : Type} [DecidableEq ε] [DecidableEq α] : DecidableEq (Except ε α) :=
  fun a b =>
    match a, b with
    | .ok x, .ok y =>
      if h : x = y then .isTrue (by rw [h]) else .isFalse (by intro hc; cases hc; exact h rfl)
    | .error x, .error y =>
      if h : x = y then .isTrue (by rw [h]) else .isFalse (by intro hc; cases hc; exact h rfl)
    | .ok _, .error _ => .isFalse (by intro hc; cases hc)
    | .error _, .ok _ => .isFalse (by intro hc; cases hc)

theorem isOk_ok {ε α : Type} (x : α) : (Except.ok x : Except ε α).isOk = true := rfl

theorem isOk_error {ε α : Type} (e : ε) : (Except.error e : Except ε α).isOk = false := rfl

theorem mapM_ok_of_all {ε α β : Type} {f : α → Except ε β} :
    ∀ {l : List α}, (∀ x ∈ l, (f x).isOk = true) → (l.mapM f).isOk = true := by
  intro l
  induction l with
  | nil =>
    intro _
    rw [List.mapM_nil]
    exact isOk_ok []
  | cons a t ih =>
    intro h
    have ha := h a (List.mem_cons_self a t)
    have ht := ih (fun x hx => h x (List.mem_cons_of_mem a hx))
    cases hfa : f a with
    | error e => rw [hfa] at ha; simp [isOk_error] at ha
    | ok b =>
      cases hft : t.mapM f with
      | error e => rw [hft] at ht; simp [isOk_error] at ht
      | ok bs =>
        simp only [List.mapM_cons, hfa, hft, Bind.bind, Except.bind, pure, Except.pure]
        exact isOk_ok _

theorem normNum_eq_str {v : JVal} {s : String} (h : normNum v = .str s) : v = .str s := by
  cases v <;> simp [normNum] at h <;> simp [h]

theorem pyEq_str_iff (a b : String) : pyEq (.str a) (.str b) = true ↔ a = b := by
  simp [pyEq, normNum]

theorem pyMem_str_mem {s : String} {l : List JVal}
    (h : pyMem (.str s) l = true) : (JVal.str s) ∈ l := by
  simp only [pyMem, List.any_eq_true] at h
  obtain ⟨y, hy, hxy⟩ := h
  simp only [pyEq, decide_eq_true_eq] at hxy
  have : normNum y = .str s := by
    rw [← hxy]; simp [normNum]
  rw [normNum_eq_str this] at hy
  exact hy

theorem padOptionsList_length (n : Nat) : (padOptionsList n).length = n := by
  simp [padOptionsList]

/-! Well-typedness of a generator response: a sufficient syntactic condition
under which `_normalize_quiz` completes without an exception. -/

/-- `(v or "").strip()` succeeds: falsy or a string. -/
def wfStr (v : JVal) : Bool := !truthy v || isStrV v

/-- `int(v)` succeeds. -/
def wfIntable : JVal → Bool
  | .int _ => true
  | .bool _ => true
  | .num _ => true
  | .str s => (parseIntStr s).isSome
  | _ => false

/-- One citation entry survives the comprehension without raising. -/
def wfCitation (c : JVal) : Bool :=
  match c with
  | .dict kvs =>
    match jget kvs "source" with
    | some _ => wfIntable ((jget kvs "chunk").getD (.int 0))
    | none => true
  | _ => true

/-- The grading block completes for this question type. -/
def wfGradingB (qtype gv : JVal) : Bool :=
  if pyEq qtype (.str "answer_short_question") then
    match (if truthy gv then gv else .dict []) with
    | .dict kvs =>
      wfStr ((jget kvs "rubric").getD .null) &&
        (let kw := (jget kvs "keywords").getD .null
         !truthy kw || (match kw with | .list _ => true | _ => false))
    | _ => false
  else true

/-- The options value (after defaulting) is a JSON list. -/
def wfOptionsB (qtype ov : JVal) : Bool :=
  match defaultOptions qtype ov with
  | .list _ => true
  | _ => false

/-- Sufficient conditions for one question dict to normalize. -/
def wfQuestionB (q : JVal) : Bool :=
  match q with
  | .dict kvs =>
    wfIntable ((jget kvs "level").getD (.int 5)) &&
    wfStr ((jget kvs "question").getD .null) &&
    wfStr ((jget kvs "explanation").getD .null) &&
    wfOptionsB ((jget kvs "type").getD .null) ((jget kvs "options").getD .null) &&
    (let cv := (jget kvs "citations").getD .null
     let cl := if truthy cv then (match cv with | .list xs => xs | _ => ([] : List JVal)) else []
     cl.all wfCitation) &&
    wfGradingB ((jget kvs "type").getD .null) ((jget kvs "grading").getD .null)
  | _ => false

/-- Sufficient conditions for a parsed response body to normalize. -/
def wfData (d : JVal) : Bool :=
  match d with
  | .dict kvs =>
    (match (if truthy ((jget kvs "questions").getD .null)
        then (jget kvs "questions").getD .null else .list []) with
     | .list xs => xs.all wfQuestionB
     | _ => false)
  | _ => false

theorem pyStripOrEmpty_ok {v : JVal} (h : wfStr v = true) :
    (pyStripOrEmpty v).isOk = true := by
  unfold wfStr at h
  unfold pyStripOrEmpty
  by_cases ht : truthy v
  · rw [ht] at h
    simp only [Bool.not_true, Bool.false_or] at h
    cases v <;> simp [isStrV] at h <;>
      simp [ht, isOk_ok, isOk_error]
  · simp [ht, isOk_ok, isOk_error]

theorem pyInt_ok {v : JVal} (h : wfIntable v = true) : (pyInt v).isOk = true := by
  cases v <;> simp [wfIntable] at h <;> try simp [pyInt, isOk_ok, isOk_error]
  case str s =>
    cases hp : parseIntStr s with
    | none => rw [hp] at h; simp [Option.isSome] at h
    | some n => simp [pyInt, hp, isOk_ok, isOk_error]

theorem shapeOptions_ok (qtype : JVal) (os : List JVal) :
    (shapeOptions qtype (.list os)).isOk = true := by
  unfold shapeOptions
  by_cases h1 : pyEq qtype (.str "mcq_single") = true
  · simp [h1, isOk_ok, isOk_error]
  · by_cases h2 : pyEq qtype (.str "mcq_multi") = true
    · simp [h1, h2, isOk_ok, isOk_error]
    · by_cases h3 : pyEq qtype (.str "true_false") = true
      · simp [h1, h2, h3, isOk_ok, isOk_error]
      · by_cases h4 : pyEq qtype (.str "answer_short_question") = true
        · simp [h1, h2, h3, h4, isOk_ok, isOk_error]
        · simp [h1, h2, h3, h4, isOk_ok, isOk_error]

theorem toStringAnswers_ok (qtype : JVal) (os : List JVal) (cand : JVal) :
    (toStringAnswers qtype (.list os) cand).isOk = true := by
  unfold toStringAnswers
  by_cases h0 : pyEq qtype (.str "answer_short_question") = true
  · simp [h0, isOk_ok]
  · rw [if_neg h0]
    cases cand with
    | list xs =>
      by_cases h1 : xs.all isStrV = true
      · simp [h1, isOk_ok]
      · by_cases h2 : xs.all isIntLikeV = true
        · simp [h1, h2, isOk_ok]
        · simp [h1, h2, isOk_ok]
    | str s => exact isOk_ok _
    | bool b => exact isOk_ok _
    | null => exact isOk_ok _
    | int n => exact isOk_ok _
    | num q => exact isOk_ok _
    | dict kvs => exact isOk_ok _

theorem normCitations_ok {v : JVal}
    (h : (if truthy v then (match v with | .list xs => xs | _ => ([] : List JVal)) else []).all
      wfCitation = true) :
    (normCitations v).isOk = true := by
  unfold normCitations
  set cl := if truthy v then (match v with | .list xs => xs | _ => ([] : List JVal)) else []
    with hcl
  have hall : ∀ c ∈ cl, (normCitation1 c).isOk = true := by
    intro c hc
    have hwf := List.all_eq_true.mp h c hc
    unfold normCitation1
    cases c <;> simp [wfCitation] at hwf ⊢ <;>
      try simp [isOk_ok, isOk_error]
    case dict kvs =>
      cases hs : jget kvs "source" with
      | none => simp [hs, isOk_ok, isOk_error]
      | some sv =>
        rw [hs] at hwf
        have := pyInt_ok (v := (jget kvs "chunk").getD (.int 0)) hwf
        cases hpi : pyInt ((jget kvs "chunk").getD (.int 0)) with
        | error e => rw [hpi] at this; simp [isOk_ok, isOk_error] at this
        | ok n =>
          simp [hs, hpi, Bind.bind, Except.bind, isOk_ok, isOk_error]
  have := mapM_ok_of_all (f := normCitation1) hall
  cases hm : cl.mapM normCitation1 with
  | error e => rw [hm] at this; simp [isOk_error] at this
  | ok outs =>
    simp only [Except.map]
    exact isOk_ok _

theorem normGrading_ok {qtype gv : JVal} (h : wfGradingB qtype gv = true) :
    (normGrading qtype gv).isOk = true := by
  unfold wfGradingB at h
  unfold normGrading
  by_cases hq : pyEq qtype (.str "answer_short_question") = true
  · rw [if_pos hq] at h ⊢
    cases hg : (if truthy gv then gv else JVal.dict []) with
    | dict kvs =>
      rw [hg] at h
      simp only [Bool.and_eq_true] at h
      obtain ⟨hrub, hkw⟩ := h
      have hr := pyStripOrEmpty_ok hrub
      cases hrs : pyStripOrEmpty ((jget kvs "rubric").getD .null) with
      | error e => rw [hrs] at hr; simp [isOk_ok, isOk_error] at hr
      | ok rubric0 =>
        by_cases htk : truthy ((jget kvs "keywords").getD .null) = true
        · rw [htk] at hkw
          simp only [Bool.not_true, Bool.false_or] at hkw
          cases hkv : (jget kvs "keywords").getD .null with
          | list xs =>
            rw [hkv] at htk
            simp [hrs, hkv, htk, Bind.bind, Except.bind, isOk_ok]
          | null => rw [hkv] at hkw; simp at hkw
          | bool b => rw [hkv] at hkw; simp at hkw
          | int n => rw [hkv] at hkw; simp at hkw
          | num q => rw [hkv] at hkw; simp at hkw
          | str s => rw [hkv] at hkw; simp at hkw
          | dict kvs2 => rw [hkv] at hkw; simp at hkw
        · simp only [Bool.not_eq_true] at htk
          simp [hrs, htk, Bind.bind, Except.bind, isOk_ok, isOk_error]
    | null => rw [hg] at h; simp at h
    | bool b => rw [hg] at h; simp at h
    | int n => rw [hg] at h; simp at h
    | num q => rw [hg] at h; simp at h
    | str s => rw [hg] at h; simp at h
    | list xs => rw [hg] at h; simp at h
  · rw [if_neg hq]
    simp [isOk_ok, isOk_error]

theorem shapeOptions_list {qtype ov r : JVal} (h : shapeOptions qtype ov = .ok r)
    (hl : ∃ os0, ov = .list os0) : ∃ os, r = .list os := by
  obtain ⟨os0, rfl⟩ := hl
  unfold shapeOptions at h
  by_cases h1 : pyEq qtype (.str "mcq_single") = true
  · rw [if_pos h1] at h
    exact ⟨_, (Except.ok.injEq _ _).mp h.symm⟩
  · rw [if_neg h1] at h
    by_cases h2 : pyEq qtype (.str "mcq_multi") = true
    · rw [if_pos h2] at h
      exact ⟨_, (Except.ok.injEq _ _).mp h.symm⟩
    · rw [if_neg h2] at h
      by_cases h3 : pyEq qtype (.str "true_false") = true
      · rw [if_pos h3] at h
        exact ⟨_, (Except.ok.injEq _ _).mp h.symm⟩
      · rw [if_neg h3] at h
        by_cases h4 : pyEq qtype (.str "answer_short_question") = true
        · rw [if_pos h4] at h
          exact ⟨_, (Except.ok.injEq _ _).mp h.symm⟩
        · rw [if_neg h4] at h
          exact ⟨os0, ((Except.ok.injEq _ _).mp h).symm⟩

theorem normQuestion_ok {q : JVal} (h : wfQuestionB q = true) (i : Nat) :
    (normQuestion i q).isOk = true := by
  cases q with
  | dict kvs =>
    simp only [wfQuestionB, Bool.and_eq_true] at h
    obtain ⟨⟨⟨⟨⟨hlev, hqs⟩, hexp⟩, hopt⟩, hcit⟩, hgr⟩ := h
    have h1 := pyInt_ok hlev
    cases hlv : pyInt ((jget kvs "level").getD (.int 5)) with
    | error e => rw [hlv] at h1; simp [isOk_error] at h1
    | ok lv =>
    have h2 := pyStripOrEmpty_ok hqs
    cases hq2 : pyStripOrEmpty ((jget kvs "question").getD .null) with
    | error e => rw [hq2] at h2; simp [isOk_error] at h2
    | ok question =>
    have hdo : ∃ os0, defaultOptions ((jget kvs "type").getD .null)
        ((jget kvs "options").getD .null) = .list os0 := by
      unfold wfOptionsB at hopt
      cases hcase : defaultOptions ((jget kvs "type").getD .null)
          ((jget kvs "options").getD .null) with
      | list os0 => exact ⟨os0, rfl⟩
      | null => rw [hcase] at hopt; simp at hopt
      | bool b => rw [hcase] at hopt; simp at hopt
      | int n => rw [hcase] at hopt; simp at hopt
      | num qq => rw [hcase] at hopt; simp at hopt
      | str s => rw [hcase] at hopt; simp at hopt
      | dict kvs2 => rw [hcase] at hopt; simp at hopt
    obtain ⟨os0, hos0⟩ := hdo
    have h3 := shapeOptions_ok ((jget kvs "type").getD .null) os0
    cases hso : shapeOptions ((jget kvs "type").getD .null) (.list os0) with
    | error e => rw [hso] at h3; simp [isOk_error] at h3
    | ok optv =>
    obtain ⟨os, rfl⟩ := shapeOptions_list hso ⟨os0, rfl⟩
    have h4 := toStringAnswers_ok ((jget kvs "type").getD .null) os
      (match (jget kvs "correctAnswers").getD .null with
        | .null => (jget kvs "answer").getD .null
        | _ => (jget kvs "correctAnswers").getD .null)
    cases hts : toStringAnswers ((jget kvs "type").getD .null) (.list os)
        (match (jget kvs "correctAnswers").getD .null with
          | .null => (jget kvs "answer").getD .null
          | _ => (jget kvs "correctAnswers").getD .null) with
    | error e => rw [hts] at h4; simp [isOk_error] at h4
    | ok correct0 =>
    have h5 := pyStripOrEmpty_ok hexp
    cases hex : pyStripOrEmpty ((jget kvs "explanation").getD .null) with
    | error e => rw [hex] at h5; simp [isOk_error] at h5
    | ok explanation =>
    have h6 := normCitations_ok (v := (jget kvs "citations").getD .null) hcit
    cases hci : normCitations ((jget kvs "citations").getD .null) with
    | error e => rw [hci] at h6; simp [isOk_error] at h6
    | ok citations =>
    have h7 := @normGrading_ok ((jget kvs "type").getD .null)
      ((jget kvs "grading").getD .null) hgr
    cases hgd : normGrading ((jget kvs "type").getD .null) ((jget kvs "grading").getD .null) with
    | error e => rw [hgd] at h7; simp [isOk_error] at h7
    | ok grading =>
    simp only [normQuestion, hlv, hq2, hos0, hso, hts, hex, hci, hgd,
      Bind.bind, Except.bind]
    exact isOk_ok _
  | null => simp [wfQuestionB] at h
  | bool b => simp [wfQuestionB] at h
  | int n => simp [wfQuestionB] at h
  | num q => simp [wfQuestionB] at h
  | str s => simp [wfQuestionB] at h
  | list xs => simp [wfQuestionB] at h

theorem normalizeQuiz_ok {d : JVal} (h : wfData d = true) :
    (normalizeQuiz d).isOk = true := by
  cases d with
  | dict kvs =>
    simp only [wfData] at h
    cases hq0 : (if truthy ((jget kvs "questions").getD .null) = true
        then (jget kvs "questions").getD .null else .list []) with
    | list xs =>
      rw [hq0] at h
      have hall : ∀ p ∈ List.enumFrom 1 xs, (normQuestion p.1 p.2).isOk = true := by
        intro p hp
        have hmem : p.2 ∈ xs := by
          have := List.enumFrom_map_snd 1 xs
          rw [← this]
          exact List.mem_map_of_mem Prod.snd hp
        exact normQuestion_ok (List.all_eq_true.mp h p.2 hmem) p.1
      have hres := mapM_ok_of_all hall
      cases hm : (List.enumFrom 1 xs).mapM (fun p => normQuestion p.1 p.2) with
      | error e => rw [hm] at hres; simp [isOk_error] at hres
      | ok out =>
        simp only [normalizeQuiz, hq0, hm, Bind.bind, Except.bind]
        exact isOk_ok _
    | null => rw [hq0] at h; simp at h
    | bool b => rw [hq0] at h; simp at h
    | int n => rw [hq0] at h; simp at h
    | num q => rw [hq0] at h; simp at h
    | str s => rw [hq0] at h; simp at h
    | dict kvs2 => rw [hq0] at h; simp at h
  | null => simp [wfData] at h
  | bool b => simp [wfData] at h
  | int n => simp [wfData] at h
  | num q => simp [wfData] at h
  | str s => simp [wfData] at h
  | list xs => simp [wfData] at h

/-! ## Per-type shape lemmas for the normalized questions -/

theorem shapeOptions_single {qtype ov r : JVal}
    (hq : pyEq qtype (.str "mcq_single") = true) (h : shapeOptions qtype ov = .ok r) :
    ∃ os, r = .list os ∧ os.length = 4 := by
  unfold shapeOptions at h
  rw [if_pos hq] at h
  cases ov with
  | list os0 =>
    simp only [Except.ok.injEq] at h
    refine ⟨_, h.symm, ?_⟩
    by_cases hl : os0.length < 4
    · simp [hl, padOptionsList_length]
      omega
    · simp [hl]
      omega
  | null => simp at h
  | bool b => simp at h
  | int n => simp at h
  | num q => simp at h
  | str s => simp at h
  | dict kvs => simp at h

theorem shapeOptions_multi {qtype ov r : JVal}
    (hq : pyEq qtype (.str "mcq_multi") = true)
    (hq1 : pyEq qtype (.str "mcq_single") = false)
    (h : shapeOptions qtype ov = .ok r) :
    ∃ os, r = .list os ∧ 3 ≤ os.length ∧ os.length ≤ 7 := by
  unfold shapeOptions at h
  rw [if_neg (by simp [hq1]), if_pos hq] at h
  cases ov with
  | list os0 =>
    simp only [Except.ok.injEq] at h
    refine ⟨_, h.symm, ?_⟩
    by_cases hl : os0.length < 3
    · simp [hl, padOptionsList_length]
      omega
    · by_cases hl2 : 7 < os0.length
      · simp [hl, hl2]
        omega
      · simp [hl, hl2]
        omega
  | null => simp at h
  | bool b => simp at h
  | int n => simp at h
  | num q => simp at h
  | str s => simp at h
  | dict kvs => simp at h

theorem toStringAnswers_mem {qtype : JVal} {os : List JVal} {cand : JVal} {c0 : List JVal}
    (hnt : pyEq qtype (.str "true_false") = false)
    (h : toStringAnswers qtype (.list os) cand = .ok c0) :
    ∀ a ∈ c0, a ∈ os := by
  unfold toStringAnswers at h
  by_cases h0 : pyEq qtype (.str "answer_short_question") = true
  · rw [if_pos h0] at h
    simp only [Except.ok.injEq] at h
    subst h
    simp
  · rw [if_neg h0] at h
    cases cand with
    | list xs =>
      by_cases h1 : xs.all isStrV = true
      · simp only [h1, if_pos, Except.ok.injEq] at h
        subst h
        intro a ha
        exact (List.mem_filter.mp ha).1
      · by_cases h2 : xs.all isIntLikeV = true
        · simp only [h1, h2, Bool.false_eq_true, if_false, if_true, Except.ok.injEq] at h
          subst h
          intro a ha
          obtain ⟨x, _, hx⟩ := List.mem_filterMap.mp ha
          unfold idxToText at hx
          by_cases hpos : 0 ≤ intLikeVal x
          · rw [if_pos hpos] at hx
            exact List.get?_mem hx
          · rw [if_neg hpos] at hx
            simp at hx
        · simp only [h1, h2, Bool.false_eq_true, if_false, Except.ok.injEq] at h
          subst h
          simp
    | str s =>
      simp only [Except.ok.injEq] at h
      subst h
      by_cases hm : pyMem (.str s) os = true
      · intro a ha
        rw [if_pos hm] at ha
        simp only [List.mem_singleton] at ha
        subst ha
        exact pyMem_str_mem hm
      · intro a ha
        rw [if_neg hm] at ha
        simp at ha
    | bool b =>
      simp only [hnt, Bool.false_eq_true, if_false, Except.ok.injEq] at h
      subst h
      simp
    | null => simp only [Except.ok.injEq] at h; subst h; simp
    | int n => simp only [Except.ok.injEq] at h; subst h; simp
    | num q => simp only [Except.ok.injEq] at h; subst h; simp
    | dict kvs => simp only [Except.ok.injEq] at h; subst h; simp

theorem enforce_single {qtype : JVal} {os c0 : List JVal}
    (hq : pyEq qtype (.str "mcq_single") = true) (hlen : os.length = 4)
    (hmem : ∀ a ∈ c0, a ∈ os) :
    ∃ a, enforceAnswers qtype (.list os) c0 = [a] ∧ pyMem a os = true := by
  unfold enforceAnswers
  rw [if_pos hq]
  cases os with
  | nil => simp at hlen
  | cons o rest =>
    by_cases hc : c0.isEmpty = true
    · refine ⟨o, by simp [hc], pyMem_of_mem (List.mem_cons_self o rest)⟩
    · cases c0 with
      | nil => simp at hc
      | cons a t =>
        refine ⟨a, by simp [hc], pyMem_of_mem ?_⟩
        exact hmem a (List.mem_cons_self a t)

theorem padTo2_cons_mem (opt : JVal) (rrest pres : List JVal) (hm : pyMem opt pres = true) :
    padTo2 (opt :: rrest) pres =
      if 2 ≤ pres.length then pres else padTo2 rrest pres := by
  simp only [padTo2, hm, if_true]

theorem padTo2_cons_nomem (opt : JVal) (rrest pres : List JVal)
    (hm : ¬ pyMem opt pres = true) :
    padTo2 (opt :: rrest) pres =
      if 2 ≤ (pres ++ [opt]).length then pres ++ [opt] else padTo2 rrest (pres ++ [opt]) := by
  simp only [padTo2, hm, Bool.false_eq_true, if_false]

theorem padTo2_mem : ∀ {rest pres : List JVal} {x : JVal},
    x ∈ padTo2 rest pres → x ∈ pres ∨ x ∈ rest := by
  intro rest
  induction rest with
  | nil =>
    intro pres x h
    rw [padTo2] at h
    exact Or.inl h
  | cons opt rrest ih =>
    intro pres x h
    by_cases hm : pyMem opt pres = true
    · rw [padTo2_cons_mem opt rrest pres hm] at h
      by_cases h2 : 2 ≤ pres.length
      · rw [if_pos h2] at h
        exact Or.inl h
      · rw [if_neg h2] at h
        rcases ih h with h | h
        · exact Or.inl h
        · exact Or.inr (List.mem_cons_of_mem opt h)
    · rw [padTo2_cons_nomem opt rrest pres hm] at h
      by_cases h2 : 2 ≤ (pres ++ [opt]).length
      · rw [if_pos h2] at h
        rcases List.mem_append.mp h with h | h
        · exact Or.inl h
        · simp only [List.mem_singleton] at h
          exact Or.inr (h ▸ List.mem_cons_self opt rrest)
      · rw [if_neg h2] at h
        rcases ih h with h | h
        · rcases List.mem_append.mp h with h | h
          · exact Or.inl h
          · simp only [List.mem_singleton] at h
            exact Or.inr (h ▸ List.mem_cons_self opt rrest)
        · exact Or.inr (List.mem_cons_of_mem opt h)

theorem padTo2_nodup : ∀ {rest pres : List JVal},
    pres.Nodup → (padTo2 rest pres).Nodup := by
  intro rest
  induction rest with
  | nil => intro pres h; rw [padTo2]; exact h
  | cons opt rrest ih =>
    intro pres h
    by_cases hm : pyMem opt pres = true
    · rw [padTo2_cons_mem opt rrest pres hm]
      by_cases h2 : 2 ≤ pres.length
      · rw [if_pos h2]; exact h
      · rw [if_neg h2]; exact ih h
    · rw [padTo2_cons_nomem opt rrest pres hm]
      have hnotin : opt ∉ pres := fun hc => hm (pyMem_of_mem hc)
      have hnd : (pres ++ [opt]).Nodup := by
        rw [List.nodup_append]
        refine ⟨h, List.nodup_singleton opt, ?_⟩
        intro a ha hc
        simp only [List.mem_singleton] at hc
        exact hnotin (hc ▸ ha)
      by_cases h2 : 2 ≤ (pres ++ [opt]).length
      · rw [if_pos h2]; exact hnd
      · rw [if_neg h2]; exact ih hnd

theorem padTo2_covers : ∀ {rest pres : List JVal},
    (padTo2 rest pres).length < 2 →
    (∀ x ∈ rest, pyMem x (padTo2 rest pres) = true) ∧
    (∀ x ∈ pres, x ∈ padTo2 rest pres) := by
  intro rest
  induction rest with
  | nil =>
    intro pres _
    rw [padTo2]
    exact ⟨by simp, fun x hx => hx⟩
  | cons opt rrest ih =>
    intro pres hlen
    by_cases hm : pyMem opt pres = true
    · rw [padTo2_cons_mem opt rrest pres hm] at hlen ⊢
      by_cases h2 : 2 ≤ pres.length
      · rw [if_pos h2] at hlen
        omega
      · rw [if_neg h2] at hlen ⊢
        obtain ⟨hrest, hpres⟩ := ih hlen
        refine ⟨?_, hpres⟩
        intro x hx
        rcases List.mem_cons.mp hx with rfl | hx
        · simp only [pyMem, List.any_eq_true] at hm ⊢
          obtain ⟨y, hy, hxy⟩ := hm
          exact ⟨y, hpres y hy, hxy⟩
        · exact hrest x hx
    · rw [padTo2_cons_nomem opt rrest pres hm] at hlen ⊢
      by_cases h2 : 2 ≤ (pres ++ [opt]).length
      · rw [if_pos h2] at hlen
        omega
      · rw [if_neg h2] at hlen ⊢
        obtain ⟨hrest, hpres⟩ := ih hlen
        have hopt : opt ∈ padTo2 rrest (pres ++ [opt]) :=
          hpres opt (List.mem_append.mpr (Or.inr (List.mem_singleton.mpr rfl)))
        refine ⟨?_, fun x hx => hpres x (List.mem_append.mpr (Or.inl hx))⟩
        intro x hx
        rcases List.mem_cons.mp hx with rfl | hx
        · exact pyMem_of_mem hopt
        · exact hrest x hx

theorem enforce_multi {qtype : JVal} {os c0 : List JVal}
    (hq : pyEq qtype (.str "mcq_multi") = true)
    (hq1 : pyEq qtype (.str "mcq_single") = false) :
    (∀ a ∈ enforceAnswers qtype (.list os) c0, a ∈ os) ∧
    (enforceAnswers qtype (.list os) c0).length ≤ 4 ∧
    ((os.map normNum).Nodup → 3 ≤ os.length →
      (enforceAnswers qtype (.list os) c0).Nodup ∧
      2 ≤ (enforceAnswers qtype (.list os) c0).length) := by
  unfold enforceAnswers
  rw [if_neg (by simp [hq1]), if_pos hq]
  simp only []
  set f := os.filter (fun opt => pyMem opt c0) with hf
  set p := if f.length < 2 then padTo2 os f else f with hp
  have hfsub : ∀ a ∈ f, a ∈ os := fun a ha => (List.mem_filter.mp ha).1
  have hpsub : ∀ a ∈ p, a ∈ os := by
    intro a ha
    rw [hp] at ha
    by_cases h2 : f.length < 2
    · rw [if_pos h2] at ha
      rcases padTo2_mem ha with h | h
      · exact hfsub a h
      · exact h
    · rw [if_neg h2] at ha
      exact hfsub a ha
  constructor
  · intro a ha
    by_cases h4 : 4 < p.length
    · rw [if_pos h4] at ha
      exact hpsub a (List.take_subset 4 p ha)
    · rw [if_neg h4] at ha
      exact hpsub a ha
  constructor
  · by_cases h4 : 4 < p.length
    · rw [if_pos h4]
      simp
    · rw [if_neg h4]
      omega
  · intro hnd hlen3
    have hosnd : os.Nodup := List.Nodup.of_map normNum hnd
    have hfnd : f.Nodup := List.Nodup.filter _ hosnd
    have hpnd : p.Nodup := by
      rw [hp]
      by_cases h2 : f.length < 2
      · rw [if_pos h2]
        exact padTo2_nodup hfnd
      · rw [if_neg h2]
        exact hfnd
    have hplen : 2 ≤ p.length := by
      rw [hp]
      by_cases h2 : f.length < 2
      · rw [if_pos h2]
        by_contra hlt
        push_neg at hlt
        obtain ⟨hcov, _⟩ := @padTo2_covers os f (by omega)
        cases os with
        | nil => simp at hlen3
        | cons a os1 =>
          cases os1 with
          | nil => simp at hlen3
          | cons b os2 =>
            have hma := hcov a (List.mem_cons_self _ _)
            have hmb := hcov b (List.mem_cons_of_mem a (List.mem_cons_self _ _))
            rcases hpp : padTo2 (a :: b :: os2) f with _ | ⟨y, ys⟩
            · rw [hpp] at hma
              simp [pyMem] at hma
            · have hys : ys = [] := by
                have := congrArg List.length hpp
                simp at this
                cases ys with
                | nil => rfl
                | cons z zs => rw [hpp] at hlt; simp at hlt; omega
              subst hys
              rw [hpp] at hma hmb
              simp only [pyMem, List.any_eq_true, List.mem_singleton] at hma hmb
              obtain ⟨ya, hya, hea⟩ := hma
              obtain ⟨yb, hyb, heb⟩ := hmb
              subst hya
              subst hyb
              simp only [pyEq, decide_eq_true_eq] at hea heb
              have heq : normNum a = normNum b := by rw [hea, heb]
              rw [List.map_cons, List.map_cons] at hnd
              have h1 := (List.nodup_cons.mp hnd).1
              exact h1 (heq ▸ List.mem_cons_self _ _)
      · rw [if_neg h2]
        omega
    constructor
    · by_cases h4 : 4 < p.length
      · rw [if_pos h4]
        exact hpnd.sublist (List.take_sublist 4 p)
      · rw [if_neg h4]
        exact hpnd
    · by_cases h4 : 4 < p.length
      · rw [if_pos h4]
        simp only [List.length_take]
        omega
      · rw [if_neg h4]
        exact hplen

theorem enforce_tf {qtype : JVal} {os : JVal} {c0 : List JVal}
    (hq : pyEq qtype (.str "true_false") = true)
    (hq1 : pyEq qtype (.str "mcq_single") = false)
    (hq2 : pyEq qtype (.str "mcq_multi") = false) :
    enforceAnswers qtype os c0 = [.str "True"] ∨
    enforceAnswers qtype os c0 = [.str "False"] := by
  unfold enforceAnswers
  rw [if_neg (by simp [hq1]), if_neg (by simp [hq2]), if_pos hq]
  cases c0 with
  | nil => exact Or.inr rfl
  | cons a t =>
    cases t with
    | cons b t2 => cases a <;> exact Or.inr rfl
    | nil =>
      cases a with
      | str s =>
        by_cases h1 : s = "True"
        · exact Or.inl (by simp [h1])
        · by_cases h2 : s = "False"
          · exact Or.inr (by simp [h1, h2])
          · exact Or.inr (by simp [h1, h2])
      | null => exact Or.inr rfl
      | bool b => exact Or.inr rfl
      | int n => exact Or.inr rfl
      | num q => exact Or.inr rfl
      | list xs => exact Or.inr rfl
      | dict kvs => exact Or.inr rfl

theorem rubricChoice_ne {rubric0 : String} :
    (if rubric0.isEmpty then fallbackRubric else rubric0) ≠ "" := by
  by_cases he : rubric0.isEmpty
  · rw [if_pos he]
    intro hc
    simp [fallbackRubric] at hc
  · rw [if_neg he]
    intro hc
    rw [hc] at he
    exact he rfl

theorem normGrading_short {qtype gv g : JVal}
    (hq : pyEq qtype (.str "answer_short_question") = true)
    (h : normGrading qtype gv = .ok g) :
    ∃ kvs r, g = .dict kvs ∧ jget kvs "rubric" = some (.str r) ∧ r ≠ "" := by
  unfold normGrading at h
  rw [if_pos hq] at h
  cases hg : (if truthy gv = true then gv else JVal.dict []) with
  | dict kvs =>
    rw [hg] at h
    dsimp only at h
    cases hrs : pyStripOrEmpty ((jget kvs "rubric").getD .null) with
    | error e => rw [hrs] at h; simp [Bind.bind, Except.bind] at h
    | ok rubric0 =>
      rw [hrs] at h
      simp only [Bind.bind, Except.bind] at h
      by_cases htk : truthy ((jget kvs "keywords").getD .null) = true
      · rw [if_pos htk] at h
        cases hkv : (jget kvs "keywords").getD .null with
        | list xs =>
          rw [hkv] at h
          simp only [Except.ok.injEq] at h
          subst h
          by_cases hmx : (isIntLikeV ((jget kvs "maxChars").getD .null) &&
              decide (0 < intLikeVal ((jget kvs "maxChars").getD .null))) = true
          · exact ⟨_, if rubric0.isEmpty then fallbackRubric else rubric0,
              by rw [if_pos hmx], by simp [jget], rubricChoice_ne⟩
          · exact ⟨_, if rubric0.isEmpty then fallbackRubric else rubric0,
              by rw [if_neg hmx], by simp [jget], rubricChoice_ne⟩
        | null => rw [hkv] at h; simp [Bind.bind, Except.bind] at h
        | bool b => rw [hkv] at h; simp [Bind.bind, Except.bind] at h
        | int n => rw [hkv] at h; simp [Bind.bind, Except.bind] at h
        | num q => rw [hkv] at h; simp [Bind.bind, Except.bind] at h
        | str s => rw [hkv] at h; simp [Bind.bind, Except.bind] at h
        | dict kvs2 => rw [hkv] at h; simp [Bind.bind, Except.bind] at h
      · rw [if_neg htk] at h
        simp only [Except.ok.injEq] at h
        subst h
        by_cases hmx : (isIntLikeV ((jget kvs "maxChars").getD .null) &&
            decide (0 < intLikeVal ((jget kvs "maxChars").getD .null))) = true
        · exact ⟨_, if rubric0.isEmpty then fallbackRubric else rubric0,
            by rw [if_pos hmx], by simp [jget], rubricChoice_ne⟩
        · exact ⟨_, if rubric0.isEmpty then fallbackRubric else rubric0,
            by rw [if_neg hmx], by simp [jget], rubricChoice_ne⟩
  | null => rw [hg] at h; simp at h
  | bool b => rw [hg] at h; simp at h
  | int n => rw [hg] at h; simp at h
  | num q => rw [hg] at h; simp at h
  | str s => rw [hg] at h; simp at h
  | list xs => rw [hg] at h; simp at h

/-- All per-type invariants of one normalized question (the `mcq_multi`
dedup/cardinality parts under the proviso that the final options are
pairwise distinct under Python equality). -/
theorem normQuestion_inv {i : Nat} {q : JVal} {nq : NQuestion}
    (h : normQuestion i q = .ok nq) :
    (nq.qtype = .str "mcq_single" → ∃ os, nq.options = .list os ∧ os.length = 4 ∧
      ∃ a, nq.correctAnswers = [a] ∧ pyMem a os = true) ∧
    (nq.qtype = .str "mcq_multi" → ∃ os, nq.options = .list os ∧
      3 ≤ os.length ∧ os.length ≤ 7 ∧
      nq.correctAnswers.length ≤ 4 ∧ (∀ a ∈ nq.correctAnswers, a ∈ os) ∧
      ((os.map normNum).Nodup → nq.correctAnswers.Nodup ∧ 2 ≤ nq.correctAnswers.length)) ∧
    (nq.qtype = .str "true_false" → nq.options = .list [.str "True", .str "False"] ∧
      (nq.correctAnswers = [.str "True"] ∨ nq.correctAnswers = [.str "False"])) ∧
    (nq.qtype = .str "answer_short_question" → nq.options = .list [] ∧
      nq.correctAnswers = [] ∧
      ∃ kvs r, nq.grading = .dict kvs ∧ jget kvs "rubric" = some (.str r) ∧ r ≠ "") := by
  cases q with
  | dict kvs =>
    simp only [normQuestion] at h
    rw [exbind_ok] at h
    obtain ⟨lv, hlv, h⟩ := h
    rw [exbind_ok] at h
    obtain ⟨question, hqs, h⟩ := h
    rw [exbind_ok] at h
    obtain ⟨optv, hso, h⟩ := h
    rw [exbind_ok] at h
    obtain ⟨correct0, hts, h⟩ := h
    rw [exbind_ok] at h
    obtain ⟨explanation, hex, h⟩ := h
    rw [exbind_ok] at h
    obtain ⟨citations, hci, h⟩ := h
    rw [exbind_ok] at h
    obtain ⟨grading, hgd, h⟩ := h
    simp only [Except.ok.injEq] at h
    subst h
    simp only []
    refine ⟨?_, ?_, ?_, ?_⟩
    · intro hqt
      rw [hqt] at hso hts ⊢
      have hpe : pyEq (JVal.str "mcq_single") (.str "mcq_single") = true := pyEq_refl _
      obtain ⟨os, rfl, hlen⟩ := shapeOptions_single hpe hso
      have hmem := toStringAnswers_mem (by decide) hts
      obtain ⟨a, hea, hma⟩ := enforce_single hpe hlen hmem
      exact ⟨os, rfl, hlen, a, hea, hma⟩
    · intro hqt
      rw [hqt] at hso hts ⊢
      have hpe : pyEq (JVal.str "mcq_multi") (.str "mcq_multi") = true := pyEq_refl _
      obtain ⟨os, rfl, hl3, hl7⟩ := shapeOptions_multi hpe (by decide) hso
      have hall := @enforce_multi _ os correct0 hpe (by decide)
      exact ⟨os, rfl, hl3, hl7, hall.2.1, hall.1,
        fun hnd => hall.2.2 hnd hl3⟩
    · intro hqt
      rw [hqt] at hso hts ⊢
      have hpe : pyEq (JVal.str "true_false") (.str "true_false") = true := pyEq_refl _
      have hopt : optv = .list [.str "True", .str "False"] := by
        unfold shapeOptions at hso
        rw [if_neg (by decide), if_neg (by decide), if_pos hpe] at hso
        simpa using hso.symm
      subst hopt
      exact ⟨rfl, enforce_tf hpe (by decide) (by decide)⟩
    · intro hqt
      rw [hqt] at hso hts hgd ⊢
      have hpe : pyEq (JVal.str "answer_short_question")
          (.str "answer_short_question") = true := pyEq_refl _
      have hopt : optv = .list [] := by
        unfold shapeOptions at hso
        rw [if_neg (by decide), if_neg (by decide), if_neg (by decide), if_pos hpe] at hso
        simpa using hso.symm
      subst hopt
      refine ⟨rfl, ?_, normGrading_short hpe hgd⟩
      unfold enforceAnswers
      rw [if_neg (by decide), if_neg (by decide), if_neg (by decide), if_pos hpe]
  | null => simp [normQuestion] at h
  | bool b => simp [normQuestion] at h
  | int n => simp [normQuestion] at h
  | num qq => simp [normQuestion] at h
  | str s => simp [normQuestion] at h
  | list xs => simp [normQuestion] at h

/-- C1 (amended): every question in a successfully normalized quiz satisfies
its per-type shape invariant; for `mcq_multi` the answers are drawn from the
options with at most 4 of them, and the dedup plus lower cardinality bound
additionally require the final options to be pairwise distinct (the
option-order requirement is dropped: padding appends out of order). -/
theorem normalizeQuiz_question_invariants
    (data : JVal) (quiz : NQuiz) (h : normalizeQuiz data = .ok quiz) :
    ∀ nq ∈ quiz.questions,
      (nq.qtype = .str "mcq_single" → ∃ os, nq.options = .list os ∧ os.length = 4 ∧
        ∃ a, nq.correctAnswers = [a] ∧ pyMem a os = true) ∧
      (nq.qtype = .str "mcq_multi" → ∃ os, nq.options = .list os ∧
        3 ≤ os.length ∧ os.length ≤ 7 ∧
        nq.correctAnswers.length ≤ 4 ∧ (∀ a ∈ nq.correctAnswers, a ∈ os) ∧
        ((os.map normNum).Nodup → nq.correctAnswers.Nodup ∧ 2 ≤ nq.correctAnswers.length)) ∧
      (nq.qtype = .str "true_false" → nq.options = .list [.str "True", .str "False"] ∧
        (nq.correctAnswers = [.str "True"] ∨ nq.correctAnswers = [.str "False"])) ∧
      (nq.qtype = .str "answer_short_question" → nq.options = .list [] ∧
        nq.correctAnswers = [] ∧
        ∃ kvs r, nq.grading = .dict kvs ∧ jget kvs "rubric" = some (.str r) ∧ r ≠ "") := by
  intro nq hnq
  cases data with
  | dict kvs =>
    simp only [normalizeQuiz] at h
    cases hq0 : (if truthy ((jget kvs "questions").getD .null) = true
        then (jget kvs "questions").getD .null else .list []) with
    | list qs =>
      rw [hq0] at h
      rw [exbind_ok] at h
      obtain ⟨out, hout, hok⟩ := h
      simp only [Except.ok.injEq] at hok
      rw [← hok] at hnq
      simp only [] at hnq
      obtain ⟨p, _, hnp⟩ := mapM_ok_mem hout nq hnq
      exact normQuestion_inv hnp
    | null => rw [hq0] at h; simp at h
    | bool b => rw [hq0] at h; simp at h
    | int n => rw [hq0] at h; simp at h
    | num q => rw [hq0] at h; simp at h
    | str s => rw [hq0] at h; simp at h
    | dict kvs2 => rw [hq0] at h; simp at h
  | null => simp [normalizeQuiz] at h
  | bool b => simp [normalizeQuiz] at h
  | int n => simp [normalizeQuiz] at h
  | num q => simp [normalizeQuiz] at h
  | str s => simp [normalizeQuiz] at h
  | list xs => simp [normalizeQuiz] at h

/-! ## C1/C2 concrete inputs, counterexamples and witnesses -/

/-- Two `mcq_multi` questions: one whose options are all the same text, one
whose recognized answer is the last option. -/
def c1CexData : JVal := .dict [("questions", .list [
  .dict [("type", .str "mcq_multi"), ("options", .list [.str "a", .str "a", .str "a"])],
  .dict [("type", .str "mcq_multi"), ("options", .list [.str "a", .str "b", .str "c"]),
    ("correctAnswers", .list [.str "c"])]])]

def c1CexQ1 : NQuestion := ⟨.str "q1", .str "mcq_multi", 5, "easy", "",
  .list [.str "a", .str "a", .str "a"], [.str "a"], "", [], .dict []⟩

def c1CexQ2 : NQuestion := ⟨.str "q2", .str "mcq_multi", 5, "easy", "",
  .list [.str "a", .str "b", .str "c"], [.str "c", .str "a"], "", [], .dict []⟩

/-- C1 counterexample: with duplicate option texts an `mcq_multi` question
is normalized to a single correct answer (violating `2 ≤ len(correctAnswers)`),
and when padding runs the answers are not a subsequence of the options in
option order. -/
theorem c1_counterexample :
    normalizeQuiz c1CexData = .ok ⟨.str "Quiz", [c1CexQ1, c1CexQ2]⟩ ∧
    c1CexQ1.qtype = .str "mcq_multi" ∧
    c1CexQ1.correctAnswers.length = 1 ∧
    c1CexQ2.qtype = .str "mcq_multi" ∧
    c1CexQ2.options = .list [.str "a", .str "b", .str "c"] ∧
    c1CexQ2.correctAnswers = [.str "c", .str "a"] ∧
    ¬ List.Sublist c1CexQ2.correctAnswers [.str "a", .str "b", .str "c"] := by
  refine ⟨by decide, rfl, rfl, rfl, rfl, rfl, by decide⟩

def c1WitData : JVal := .dict [("questions", .list [
  .dict [("type", .str "mcq_single"), ("options", .list [.str "A", .str "B"]),
    ("correctAnswers", .list [.str "B"])]])]

def c1WitQ : NQuestion := ⟨.str "q1", .str "mcq_single", 5, "easy", "",
  .list [.str "A", .str "B", .str "Option 1", .str "Option 2"], [.str "B"], "", [], .dict []⟩

/-- C1 witness: the invariants instantiated at a concrete normalized quiz. -/
theorem c1_witness :
    (c1WitQ.qtype = .str "mcq_single" → ∃ os, c1WitQ.options = .list os ∧ os.length = 4 ∧
      ∃ a, c1WitQ.correctAnswers = [a] ∧ pyMem a os = true) ∧
    (c1WitQ.qtype = .str "mcq_multi" → ∃ os, c1WitQ.options = .list os ∧
      3 ≤ os.length ∧ os.length ≤ 7 ∧
      c1WitQ.correctAnswers.length ≤ 4 ∧ (∀ a ∈ c1WitQ.correctAnswers, a ∈ os) ∧
      ((os.map normNum).Nodup → c1WitQ.correctAnswers.Nodup ∧
        2 ≤ c1WitQ.correctAnswers.length)) ∧
    (c1WitQ.qtype = .str "true_false" → c1WitQ.options = .list [.str "True", .str "False"] ∧
      (c1WitQ.correctAnswers = [.str "True"] ∨ c1WitQ.correctAnswers = [.str "False"])) ∧
    (c1WitQ.qtype = .str "answer_short_question" → c1WitQ.options = .list [] ∧
      c1WitQ.correctAnswers = [] ∧
      ∃ kvs r, c1WitQ.grading = .dict kvs ∧ jget kvs "rubric" = some (.str r) ∧ r ≠ "") :=
  normalizeQuiz_question_invariants c1WitData ⟨.str "Quiz", [c1WitQ]⟩ (by decide)
    c1WitQ (by decide)

/-- C2 (amended): a body `json.loads` rejects degrades to exactly the empty
quiz, never an exception; a parsed body normalizes without an exception
whenever its fields are well-typed in the sense of `wfData` (in particular
numeric `level` and citation `chunk` values); wrongly-typed fields raise
instead of degrading. -/
theorem c2_generateQuiz_degrades :
    generateQuizResult none = .ok ⟨.str "Quiz", []⟩ ∧
    ∀ d : JVal, wfData d = true → (generateQuizResult (some d)).isOk = true := by
  constructor
  · decide
  · intro d hd
    simpa [generateQuizResult] using normalizeQuiz_ok hd

def c2WitData : JVal := .dict [("title", .str "T"), ("questions", .list [
  .dict [("type", .str "mcq_single"), ("options", .list [.str "A", .str "B"]),
    ("correctAnswers", .list [.str "B"]), ("level", .int 3),
    ("citations", .list [.dict [("source", .str "doc.txt"), ("chunk", .int 2)]])],
  .dict [("type", .str "answer_short_question"),
    ("grading", .dict [("rubric", .str "Explain."), ("keywords", .list [.str "k"])])]])]

/-- C2 witness: a concrete well-typed body normalizes successfully. -/
theorem c2_generateQuiz_degrades_witness :
    wfData c2WitData = true ∧ (generateQuizResult (some c2WitData)).isOk = true :=
  ⟨by decide, c2_generateQuiz_degrades.2 c2WitData (by decide)⟩

def c2CexLevel : JVal := .dict [("questions", .list [.dict [("level", .str "oops")]])]

def c2CexChunk : JVal := .dict [("questions", .list [.dict
  [("citations", .list [.dict [("source", .str "s"), ("chunk", .str "x")]])]])]

/-- C2 counterexample: a parsed body with a non-numeric `level` (or a
non-numeric citation `chunk`) makes normalization raise `ValueError` instead
of degrading, so `generate_quiz_from_chunks` can raise for a parseable but
schema-violating response. -/
theorem c2_counterexample :
    (generateQuizResult (some c2CexLevel)).isOk = false ∧
    (generateQuizResult (some c2CexChunk)).isOk = false := by
  refine ⟨by decide, by decide⟩

/-! ## `evaluate_short_answer` (`app/quiz.py`)

The prompt's text is sent to the external generator and leaves the
program; only the failure behaviour of the prompt construction is
modelled (`evalPromptCheck`), faithful to the evaluation order of the
source. -/

/-- Python `", ".join(x)`. -/
def joinComma (kws : JVal) : Except PyErr String :=
  match kws with
  | .list xs =>
    if xs.all isStrV then
      .ok (String.intercalate ", " (xs.map (fun x => match x with | .str s => s | _ => "")))
    else .error (.typeError "sequence item expected str instance")
  | .str s => .ok (String.intercalate ", " (s.data.map (fun c => String.mk [c])))
  | _ => .error (.typeError "can only join an iterable")

/-- The attribute accesses and conversions performed while building the
evaluation prompt, in source order: `question.get('question','').strip()`,
`grading.get('rubric','').strip()`, `', '.join(grading.get('keywords',[]))`,
then `citation['source']` and `citation['chunk']` per citation. -/
def evalPromptCheck (qkvs : List (String × JVal)) : Except PyErr Unit := do
  let grading := (jget qkvs "grading").getD (.dict [])
  _ ← (match (jget qkvs "question").getD (.str "") with
       | .str s => Except.ok (pyStripStr s)
       | _ => Except.error (.attrError "object has no strip attribute"))
  let rub ← (match grading with
       | .dict g => Except.ok ((jget g "rubric").getD (.str ""))
       | _ => Except.error (.attrError "object has no get attribute"))
  _ ← (match rub with
       | .str s => Except.ok (pyStripStr s)
       | _ => Except.error (.attrError "object has no strip attribute"))
  let kws ← (match grading with
       | .dict g => Except.ok ((jget g "keywords").getD (.list []))
       | _ => Except.error (.attrError "object has no get attribute"))
  _ ← joinComma kws
  _ ← (match (jget qkvs "citations").getD (.list []) with
       | .list cs => cs.mapM (fun c => match c with
           | .dict ck =>
             (match jget ck "source", jget ck "chunk" with
              | some _, some _ => Except.ok ()
              | none, _ => Except.error (.keyError "source")
              | some _, none => Except.error (.keyError "chunk"))
           | _ => Except.error (.typeError "value is not subscriptable"))
       | _ => Except.error (.typeError "value is not iterable"))
  .ok ()

/-- The dict returned by `evaluate_short_answer`. -/
structure EvalResult where
  result : String
  answer : String
  score : ℚ
  feedback : String
  citations : JVal
deriving DecidableEq, Repr

def evalTypeErrMsg : String :=
  "evaluate_short_answer requires a question of type answer_short_question"

/-- `question.get("citations", [])`. -/
def origCitations (q : JVal) : JVal :=
  match q with
  | .dict kvs => (jget kvs "citations").getD (.list [])
  | _ => .list []

/-- `evaluate_short_answer(user_answer, question)` with the generator's
response abstracted: `resp = none` models a body `json.loads` rejects,
`resp = some data` a parsed body. -/
def evaluateShortAnswer (userAnswer : String) (question : JVal) (resp : Option JVal) :
    Except PyErr EvalResult :=
  match question with
  | .dict qkvs =>
    if pyEq ((jget qkvs "type").getD .null) (.str "answer_short_question") then
      (do
        let _ := pyStripStr userAnswer
        _ ← evalPromptCheck qkvs
        match resp with
        | none =>
          .ok ⟨"incorrect", "", 0, "Error evaluating answer.",
            (jget qkvs "citations").getD (.list [])⟩
        | some data =>
          match data with
          | .dict dkvs => do
            let sc ← pyFloat ((jget dkvs "score").getD (.num 0))
            let answer ← pyStripOrEmpty ((jget dkvs "answer").getD .null)
            let feedback ← pyStripOrEmpty ((jget dkvs "feedback").getD .null)
            .ok ⟨(if pyEq ((jget dkvs "result").getD .null) (.str "correct")
                  then "correct" else "incorrect"),
                 answer, max 0 (min 1 sc), feedback,
                 (jget qkvs "citations").getD (.list [])⟩
          | _ => .error (.attrError "object has no get attribute"))
    else .error (.valueError evalTypeErrMsg)
  | _ => .error (.attrError "object has no get attribute")

/-- `float(v)` succeeds. -/
def wfScoreV : JVal → Bool
  | .int _ => true
  | .bool _ => true
  | .num _ => true
  | .str s => (parseFloatStr s).isSome
  | _ => false

/-- The question is an `answer_short_question` whose prompt builds. -/
def wfEvalQuestion (q : JVal) : Bool :=
  match q with
  | .dict qkvs =>
    pyEq ((jget qkvs "type").getD .null) (.str "answer_short_question") &&
      (evalPromptCheck qkvs).isOk
  | _ => false

theorem pyFloat_ok {v : JVal} (h : wfScoreV v = true) : (pyFloat v).isOk = true := by
  cases v <;> simp [wfScoreV] at h <;> try simp [pyFloat, isOk_ok]
  case str s =>
    cases hp : parseFloatStr s with
    | none => rw [hp] at h; simp [Option.isSome] at h
    | some q => simp [pyFloat, hp, isOk_ok]

/-- C3 (amended): the type precondition raises exactly the `ValueError`;
given a short-answer question whose prompt builds, an unparseable response
yields the fixed fallback (which also carries `answer := ""`), and a parsed
JSON-object response with convertible `score` and string-or-falsy
`answer`/`feedback` yields a verdict with the score clamped to `[0,1]`,
`result = "correct"` iff the generator reported `"correct"`, and the
question's citations unchanged.  (Responses with a non-numeric `score`, or
a non-object top level, raise instead — see the counterexample.) -/
theorem c3_evaluateShortAnswer :
    (∀ (u : String) (qkvs : List (String × JVal)) (resp : Option JVal),
      pyEq ((jget qkvs "type").getD .null) (.str "answer_short_question") = false →
      evaluateShortAnswer u (.dict qkvs) resp = .error (.valueError evalTypeErrMsg)) ∧
    (∀ (u : String) (q : JVal), wfEvalQuestion q = true →
      (evaluateShortAnswer u q none =
        .ok ⟨"incorrect", "", 0, "Error evaluating answer.", origCitations q⟩) ∧
      (∀ dkvs : List (String × JVal),
        wfScoreV ((jget dkvs "score").getD (.num 0)) = true →
        wfStr ((jget dkvs "answer").getD .null) = true →
        wfStr ((jget dkvs "feedback").getD .null) = true →
        ∃ r, evaluateShortAnswer u q (some (.dict dkvs)) = .ok r ∧
          0 ≤ r.score ∧ r.score ≤ 1 ∧
          (r.result = "correct" ↔
            pyEq ((jget dkvs "result").getD .null) (.str "correct") = true) ∧
          r.citations = origCitations q)) := by
  constructor
  · intro u qkvs resp h
    unfold evaluateShortAnswer
    dsimp only
    rw [if_neg (by simp [h])]
  · intro u q hq
    cases q with
    | dict qkvs =>
      simp only [wfEvalQuestion, Bool.and_eq_true] at hq
      obtain ⟨hty, hpc⟩ := hq
      cases hpck : evalPromptCheck qkvs with
      | error e => rw [hpck] at hpc; simp [isOk_error] at hpc
      | ok u0 =>
        constructor
        · unfold evaluateShortAnswer
          dsimp only
          rw [if_pos hty]
          simp only [hpck, Bind.bind, Except.bind, origCitations]
        · intro dkvs hsc hans hfb
          have h1 := pyFloat_ok hsc
          cases hscv : pyFloat ((jget dkvs "score").getD (.num 0)) with
          | error e => rw [hscv] at h1; simp [isOk_error] at h1
          | ok sc =>
            have h2 := pyStripOrEmpty_ok hans
            cases hansv : pyStripOrEmpty ((jget dkvs "answer").getD .null) with
            | error e => rw [hansv] at h2; simp [isOk_error] at h2
            | ok answer =>
              have h3 := pyStripOrEmpty_ok hfb
              cases hfbv : pyStripOrEmpty ((jget dkvs "feedback").getD .null) with
              | error e => rw [hfbv] at h3; simp [isOk_error] at h3
              | ok feedback =>
                refine ⟨⟨(if pyEq ((jget dkvs "result").getD .null) (.str "correct")
                    then "correct" else "incorrect"),
                    answer, max 0 (min 1 sc), feedback,
                    (jget qkvs "citations").getD (.list [])⟩, ?_, ?_, ?_, ?_, ?_⟩
                · unfold evaluateShortAnswer
                  dsimp only
                  rw [if_pos hty]
                  simp only [hpck, hscv, hansv, hfbv, Bind.bind, Except.bind]
                · exact le_max_left 0 _
                · simp only []
                  exact max_le (by norm_num) (min_le_left 1 sc)
                · simp only []
                  by_cases hres : pyEq ((jget dkvs "result").getD .null) (.str "correct") = true
                  · simp [hres]
                  · simp [hres]
                · simp [origCitations]
    | null => simp [wfEvalQuestion] at hq
    | bool b => simp [wfEvalQuestion] at hq
    | int n => simp [wfEvalQuestion] at hq
    | num qq => simp [wfEvalQuestion] at hq
    | str s => simp [wfEvalQuestion] at hq
    | list xs => simp [wfEvalQuestion] at hq

def c3CexQ : JVal := .dict [("type", .str "answer_short_question")]

/-- C3 counterexample: with a question of the required type, a parsed
response whose `score` is a non-numeric string makes the call raise
`ValueError` (from `float(...)`), so the `ValueError`-iff-wrong-type and
never-throws-on-malformed-response parts of the claim fail. -/
theorem c3_counterexample :
    pyEq ((jget [("type", JVal.str "answer_short_question")] "type").getD .null)
      (.str "answer_short_question") = true ∧
    evaluateShortAnswer "ans" c3CexQ (some (.dict [("score", .str "great")])) =
      .error (.valueError "could not convert string to float") := by
  refine ⟨by decide, by decide⟩

def c3WitQ : JVal := .dict [("type", .str "answer_short_question"),
  ("question", .str "What is X?"),
  ("grading", .dict [("rubric", .str "R"), ("keywords", .list [.str "k"])]),
  ("citations", .list [.dict [("source", .str "s.txt"), ("chunk", .int 1)]])]

def c3WitResp : List (String × JVal) :=
  [("result", .str "correct"), ("score", .num (7/10)),
   ("answer", .str " A "), ("feedback", .str "ok")]

/-- C3 witness: both branches at concrete inputs. -/
theorem c3_witness :
    (evaluateShortAnswer "u" (.dict [("type", .str "mcq_single")]) none =
      .error (.valueError evalTypeErrMsg)) ∧
    (evaluateShortAnswer "u" c3WitQ none =
      .ok ⟨"incorrect", "", 0, "Error evaluating answer.", origCitations c3WitQ⟩) ∧
    (∃ r, evaluateShortAnswer "u" c3WitQ (some (.dict c3WitResp)) = .ok r ∧
      0 ≤ r.score ∧ r.score ≤ 1 ∧
      (r.result = "correct" ↔
        pyEq ((jget c3WitResp "result").getD .null) (.str "correct") = true) ∧
      r.citations = origCitations c3WitQ) :=
  ⟨c3_evaluateShortAnswer.1 "u" [("type", .str "mcq_single")] none (by decide),
   (c3_evaluateShortAnswer.2 "u" c3WitQ (by decide)).1,
   (c3_evaluateShortAnswer.2 "u" c3WitQ (by decide)).2 c3WitResp
     (by decide) (by decide) (by decide)⟩

/-! ## `extract_text_from_path` (`app/extract.py`)

The filesystem and the optional decoder libraries are abstracted: a
`FileInput` carries a file's (lowercased) extension, name, the outcome of
reading it as text, its `stat` outcome, and the mime-type guess; a
`DecoderEnv` carries each optional dependency's availability and the
outcome of its decode try-block (`ok` = the produced text, `error` = the
caught exception's message).  Every `_read_*` helper catches its own
exceptions, so the dispatcher is a total function into `String`. -/

structure FileInput where
  ext : String
  name : String
  readText : Except String String
  statSize : Except String Nat
  mimeIsText : Bool
deriving DecidableEq, Repr

structure DecoderEnv where
  csvResult : Except String String
  hasOpenpyxl : Bool
  xlsxResult : Except String String
  hasDocx : Bool
  docxResult : Except String String
  hasPptx : Bool
  pptxResult : Except String String
  fitzResult : Except String String
  pdfminerResult : Except String String
  hasTesseract : Bool
  hasPIL : Bool
  ocrResult : Except String String
  jsonResult : Except String String
  yamlResult : Except String String
deriving DecidableEq, Repr

def TEXT_EXTS : List String :=
  [".txt", ".md", ".rst", ".log", ".ini", ".cfg", ".conf", ".env", ".py", ".ipynb",
   ".js", ".ts", ".tsx", ".jsx", ".java", ".kt", ".kts", ".cs", ".vb", ".c", ".h",
   ".cpp", ".hpp", ".cc", ".hh", ".go", ".rs", ".swift", ".m", ".mm", ".php", ".rb",
   ".pl", ".sh", ".bash", ".zsh", ".fish", ".sql", ".scala", ".clj", ".edn", ".lua"]

def IMG_EXTS : List String :=
  [".png", ".jpg", ".jpeg", ".bmp", ".tif", ".tiff", ".gif", ".webp"]

def maxTextBytes : Nat := 10 * 1024 * 1024

/-- Placeholder construction: the tag followed by the explanatory rest,
exactly as the source f-strings concatenate them. -/
def mkTagged (tag rest : String) : String := tag ++ rest

def readTextFileM (fi : FileInput) : String :=
  match fi.readText with
  | .ok t => t
  | .error e => mkTagged "[error]" (" reading text file " ++ fi.name ++ ": " ++ e ++ "\n")

def readCsvM (env : DecoderEnv) (fi : FileInput) : String :=
  match env.csvResult with
  | .ok t => t
  | .error e => mkTagged "[error]" (" reading CSV/TSV " ++ fi.name ++ ": " ++ e ++ "\n")

def readXlsxM (env : DecoderEnv) (fi : FileInput) : String :=
  if !env.hasOpenpyxl then mkTagged "[missing]" (" openpyxl not installed for " ++ fi.name ++ "\n")
  else match env.xlsxResult with
  | .ok t => t
  | .error e => mkTagged "[error]" (" reading XLSX " ++ fi.name ++ ": " ++ e ++ "\n")

def readDocxM (env : DecoderEnv) (fi : FileInput) : String :=
  if !env.hasDocx then mkTagged "[missing]" (" python-docx not installed for " ++ fi.name ++ "\n")
  else match env.docxResult with
  | .ok t => t
  | .error e => mkTagged "[error]" (" reading DOCX " ++ fi.name ++ ": " ++ e ++ "\n")

def readPptxM (env : DecoderEnv) (fi : FileInput) : String :=
  if !env.hasPptx then mkTagged "[missing]" (" python-pptx not installed for " ++ fi.name ++ "\n")
  else match env.pptxResult with
  | .ok t => t
  | .error e => mkTagged "[error]" (" reading PPTX " ++ fi.name ++ ": " ++ e ++ "\n")

def readPdfM (env : DecoderEnv) (fi : FileInput) : String :=
  match env.fitzResult with
  | .ok t => t
  | .error _ =>
    match env.pdfminerResult with
    | .ok t => t
    | .error e => mkTagged "[error]" (" reading PDF " ++ fi.name ++ ": " ++ e ++ "\n")

def readImageM (env : DecoderEnv) (fi : FileInput) (ocr : Bool) : String :=
  if !ocr then mkTagged "[skip]" (" " ++ fi.name ++ ": OCR disabled.\n")
  else if !(env.hasTesseract && env.hasPIL) then
    mkTagged "[missing]" (" pytesseract/Pillow not installed for " ++ fi.name ++ "\n")
  else match env.ocrResult with
  | .ok t => t
  | .error e => mkTagged "[error]" (" OCR " ++ fi.name ++ ": " ++ e ++ "\n")

def readJsonM (env : DecoderEnv) (fi : FileInput) : String :=
  match env.jsonResult with
  | .ok t => t
  | .error e => mkTagged "[error]" (" reading JSON " ++ fi.name ++ ": " ++ e ++ "\n")

def readYamlM (env : DecoderEnv) (fi : FileInput) : String :=
  match env.yamlResult with
  | .ok t => t
  | .error e => mkTagged "[error]" (" reading YAML " ++ fi.name ++ ": " ++ e ++ "\n")

def readXmlM (fi : FileInput) : String :=
  match fi.readText with
  | .ok t => t
  | .error e => mkTagged "[error]" (" reading XML " ++ fi.name ++ ": " ++ e ++ "\n")

/-- Python `ext.lstrip(".")`. -/
def lstripDots (s : String) : String := String.mk (s.data.dropWhile (fun c => c = '.'))

/-- `extract_text_from_path(path, ocr)`. -/
def extractTextFromPath (env : DecoderEnv) (fi : FileInput) (ocr : Bool) : String :=
  if TEXT_EXTS.contains fi.ext then readTextFileM fi
  else if fi.ext = ".csv" then readCsvM env fi
  else if fi.ext = ".tsv" then readCsvM env fi
  else if fi.ext = ".xlsx" then readXlsxM env fi
  else if fi.ext = ".docx" then readDocxM env fi
  else if fi.ext = ".pptx" then readPptxM env fi
  else if fi.ext = ".pdf" then readPdfM env fi
  else if IMG_EXTS.contains fi.ext then readImageM env fi ocr
  else if fi.ext = ".json" then readJsonM env fi
  else if fi.ext = ".yaml" then readYamlM env fi
  else if fi.ext = ".yml" then readYamlM env fi
  else if fi.ext = ".xml" then readXmlM fi
  else
    match fi.statSize with
    | .ok sz =>
      if sz ≤ maxTextBytes then readTextFileM fi
      else if fi.mimeIsText then readTextFileM fi
      else mkTagged "[unsupported]" (" " ++ fi.name ++ " (." ++ lstripDots fi.ext ++
        ") - no extractor available.\n")
    | .error _ =>
      if fi.mimeIsText then readTextFileM fi
      else mkTagged "[unsupported]" (" " ++ fi.name ++ " (." ++ lstripDots fi.ext ++
        ") - no extractor available.\n")

def tagPrefix (p s : String) : Bool := List.isPrefixOf p.data s.data

/-- The result carries one of the four placeholder tags. -/
def isTagged (s : String) : Bool :=
  tagPrefix "[unsupported]" s || tagPrefix "[missing]" s ||
    tagPrefix "[error]" s || tagPrefix "[skip]" s

/-- The result is text some decoder run produced successfully (possibly
empty, e.g. an empty text file). -/
def DecodeOk (env : DecoderEnv) (fi : FileInput) (r : String) : Prop :=
  fi.readText = .ok r ∨ env.csvResult = .ok r ∨ env.xlsxResult = .ok r ∨
  env.docxResult = .ok r ∨ env.pptxResult = .ok r ∨ env.fitzResult = .ok r ∨
  env.pdfminerResult = .ok r ∨ env.ocrResult = .ok r ∨ env.jsonResult = .ok r ∨
  env.yamlResult = .ok r

theorem isPrefixOf_append_self : ∀ (l r : List Char), List.isPrefixOf l (l ++ r) = true := by
  intro l r
  induction l with
  | nil => simp [List.isPrefixOf]
  | cons a t ih => simp [List.isPrefixOf, ih]

theorem tagPrefix_self_append (tag rest : String) : tagPrefix tag (tag ++ rest) = true := by
  unfold tagPrefix
  rw [String.data_append]
  exact isPrefixOf_append_self _ _

theorem isTagged_unsupported (rest : String) :
    isTagged (mkTagged "[unsupported]" rest) = true := by
  simp [isTagged, mkTagged, tagPrefix_self_append]

theorem isTagged_missing (rest : String) : isTagged (mkTagged "[missing]" rest) = true := by
  simp [isTagged, mkTagged, tagPrefix_self_append]

theorem isTagged_error (rest : String) : isTagged (mkTagged "[error]" rest) = true := by
  simp [isTagged, mkTagged, tagPrefix_self_append]

theorem isTagged_skip (rest : String) : isTagged (mkTagged "[skip]" rest) = true := by
  simp [isTagged, mkTagged, tagPrefix_self_append]

theorem readTextFileM_cases (fi : FileInput) :
    isTagged (readTextFileM fi) = true ∨ fi.readText = .ok (readTextFileM fi) := by
  unfold readTextFileM
  cases h : fi.readText with
  | ok t => exact Or.inr rfl
  | error e => exact Or.inl (isTagged_error _)

/-- C4 (amended): `extract_text_from_path` is total (it is a plain function
into `String`): every unavailable-dependency, failed-decode, unreadable or
unsupported outcome is a placeholder tagged `[unsupported]`, `[missing]`,
`[error]` or `[skip]`, and every other result is exactly the text some
decoder produced successfully — which may be the empty string (e.g. an
empty `.txt` file), so the non-empty part of the claim is dropped.  An
extension whose optional dependency is unavailable yields a `[missing]`
placeholder, and images without `ocr` yield `[skip]`. -/
theorem c4_extract_tagged_or_decoded :
    (∀ (env : DecoderEnv) (fi : FileInput) (ocr : Bool),
      isTagged (extractTextFromPath env fi ocr) = true ∨
        DecodeOk env fi (extractTextFromPath env fi ocr)) ∧
    (∀ (env : DecoderEnv) (fi : FileInput) (ocr : Bool),
      fi.ext = ".xlsx" → env.hasOpenpyxl = false →
        tagPrefix "[missing]" (extractTextFromPath env fi ocr) = true) ∧
    (∀ (env : DecoderEnv) (fi : FileInput) (ocr : Bool),
      fi.ext = ".docx" → env.hasDocx = false →
        tagPrefix "[missing]" (extractTextFromPath env fi ocr) = true) ∧
    (∀ (env : DecoderEnv) (fi : FileInput) (ocr : Bool),
      fi.ext = ".pptx" → env.hasPptx = false →
        tagPrefix "[missing]" (extractTextFromPath env fi ocr) = true) ∧
    (∀ (env : DecoderEnv) (fi : FileInput),
      IMG_EXTS.contains fi.ext = true → (env.hasTesseract && env.hasPIL) = false →
        tagPrefix "[missing]" (extractTextFromPath env fi true) = true) ∧
    (∀ (env : DecoderEnv) (fi : FileInput),
      IMG_EXTS.contains fi.ext = true →
        tagPrefix "[skip]" (extractTextFromPath env fi false) = true) := by
  refine ⟨?_, ?_, ?_, ?_, ?_, ?_⟩
  · intro env fi ocr
    unfold extractTextFromPath
    by_cases h1 : TEXT_EXTS.contains fi.ext = true
    · simp only [h1, if_true]
      rcases readTextFileM_cases fi with h | h
      · exact Or.inl h
      · exact Or.inr (Or.inl h)
    · simp only [h1, Bool.false_eq_true, if_false]
      by_cases h2 : fi.ext = ".csv"
      · rw [if_pos h2]
        unfold readCsvM
        cases hc : env.csvResult with
        | ok t => exact Or.inr (Or.inr (Or.inl hc))
        | error e => exact Or.inl (isTagged_error _)
      · rw [if_neg h2]
        by_cases h3 : fi.ext = ".tsv"
        · rw [if_pos h3]
          unfold readCsvM
          cases hc : env.csvResult with
          | ok t => exact Or.inr (Or.inr (Or.inl hc))
          | error e => exact Or.inl (isTagged_error _)
        · rw [if_neg h3]
          by_cases h4 : fi.ext = ".xlsx"
          · rw [if_pos h4]
            unfold readXlsxM
            by_cases hx : env.hasOpenpyxl
            · simp only [hx, Bool.not_true, Bool.false_eq_true, if_false]
              cases hc : env.xlsxResult with
              | ok t => exact Or.inr (Or.inr (Or.inr (Or.inl hc)))
              | error e => exact Or.inl (isTagged_error _)
            · rw [Bool.not_eq_true] at hx
              simp [hx]
              exact Or.inl (isTagged_missing _)
          · rw [if_neg h4]
            by_cases h5 : fi.ext = ".docx"
            · rw [if_pos h5]
              unfold readDocxM
              by_cases hx : env.hasDocx
              · simp only [hx, Bool.not_true, Bool.false_eq_true, if_false]
                cases hc : env.docxResult with
                | ok t => exact Or.inr (Or.inr (Or.inr (Or.inr (Or.inl hc))))
                | error e => exact Or.inl (isTagged_error _)
              · rw [Bool.not_eq_true] at hx
                simp [hx]
                exact Or.inl (isTagged_missing _)
            · rw [if_neg h5]
              by_cases h6 : fi.ext = ".pptx"
              · rw [if_pos h6]
                unfold readPptxM
                by_cases hx : env.hasPptx
                · simp only [hx, Bool.not_true, Bool.false_eq_true, if_false]
                  cases hc : env.pptxResult with
                  | ok t => exact Or.inr (Or.inr (Or.inr (Or.inr (Or.inr (Or.inl hc)))))
                  | error e => exact Or.inl (isTagged_error _)
                · rw [Bool.not_eq_true] at hx
                  simp [hx]
                  exact Or.inl (isTagged_missing _)
              · rw [if_neg h6]
                by_cases h7 : fi.ext = ".pdf"
                · rw [if_pos h7]
                  unfold readPdfM
                  cases hf : env.fitzResult with
                  | ok t =>
                    exact Or.inr (Or.inr (Or.inr (Or.inr (Or.inr (Or.inr (Or.inl hf))))))
                  | error e =>
                    cases hp : env.pdfminerResult with
                    | ok t =>
                      exact Or.inr (Or.inr (Or.inr (Or.inr (Or.inr (Or.inr
                        (Or.inr (Or.inl hp)))))))
                    | error e2 => exact Or.inl (isTagged_error _)
                · rw [if_neg h7]
                  by_cases h8 : IMG_EXTS.contains fi.ext = true
                  · simp only [h8, if_true]
                    unfold readImageM
                    by_cases ho : ocr
                    · simp only [ho, Bool.not_true, Bool.false_eq_true, if_false]
                      by_cases ht : (env.hasTesseract && env.hasPIL) = true
                      · simp only [ht, Bool.not_true, Bool.false_eq_true, if_false]
                        cases hc : env.ocrResult with
                        | ok t =>
                          exact Or.inr (Or.inr (Or.inr (Or.inr (Or.inr (Or.inr
                            (Or.inr (Or.inr (Or.inl hc))))))))
                        | error e => exact Or.inl (isTagged_error _)
                      · rw [Bool.not_eq_true] at ht
                        simp [ht]
                        exact Or.inl (isTagged_missing _)
                    · rw [Bool.not_eq_true] at ho
                      simp [ho]
                      exact Or.inl (isTagged_skip _)
                  · simp only [h8, Bool.false_eq_true, if_false]
                    by_cases h9 : fi.ext = ".json"
                    · rw [if_pos h9]
                      unfold readJsonM
                      cases hc : env.jsonResult with
                      | ok t =>
                        exact Or.inr (Or.inr (Or.inr (Or.inr (Or.inr (Or.inr
                          (Or.inr (Or.inr (Or.inr (Or.inl hc)))))))))
                      | error e => exact Or.inl (isTagged_error _)
                    · rw [if_neg h9]
                      by_cases h10 : fi.ext = ".yaml"
                      · rw [if_pos h10]
                        unfold readYamlM
                        cases hc : env.yamlResult with
                        | ok t =>
                          exact Or.inr (Or.inr (Or.inr (Or.inr (Or.inr (Or.inr
                            (Or.inr (Or.inr (Or.inr (Or.inr hc)))))))))
                        | error e => exact Or.inl (isTagged_error _)
                      · rw [if_neg h10]
                        by_cases h11 : fi.ext = ".yml"
                        · rw [if_pos h11]
                          unfold readYamlM
                          cases hc : env.yamlResult with
                          | ok t =>
                            exact Or.inr (Or.inr (Or.inr (Or.inr (Or.inr (Or.inr
                              (Or.inr (Or.inr (Or.inr (Or.inr hc)))))))))
                          | error e => exact Or.inl (isTagged_error _)
                        · rw [if_neg h11]
                          by_cases h12 : fi.ext = ".xml"
                          · rw [if_pos h12]
                            unfold readXmlM
                            cases hc : fi.readText with
                            | ok t => exact Or.inr (Or.inl hc)
                            | error e => exact Or.inl (isTagged_error _)
                          · rw [if_neg h12]
                            cases hs : fi.statSize with
                            | ok sz =>
                              dsimp only
                              by_cases hsz : sz ≤ maxTextBytes
                              · rw [if_pos hsz]
                                rcases readTextFileM_cases fi with h | h
                                · exact Or.inl h
                                · exact Or.inr (Or.inl h)
                              · rw [if_neg hsz]
                                by_cases hm : fi.mimeIsText = true
                                · rw [if_pos hm]
                                  rcases readTextFileM_cases fi with h | h
                                  · exact Or.inl h
                                  · exact Or.inr (Or.inl h)
                                · simp only [hm, Bool.false_eq_true, if_false]
                                  exact Or.inl (isTagged_unsupported _)
                            | error e =>
                              dsimp only
                              by_cases hm : fi.mimeIsText = true
                              · rw [if_pos hm]
                                rcases readTextFileM_cases fi with h | h
                                · exact Or.inl h
                                · exact Or.inr (Or.inl h)
                              · simp only [hm, Bool.false_eq_true, if_false]
                                exact Or.inl (isTagged_unsupported _)
  · intro env fi ocr hext hdep
    unfold extractTextFromPath
    rw [hext]
    rw [if_neg (by decide), if_neg (by decide), if_neg (by decide), if_pos rfl]
    unfold readXlsxM
    simp [hdep, mkTagged, tagPrefix_self_append]
  · intro env fi ocr hext hdep
    unfold extractTextFromPath
    rw [hext]
    rw [if_neg (by decide), if_neg (by decide), if_neg (by decide), if_neg (by decide),
      if_pos rfl]
    unfold readDocxM
    simp [hdep, mkTagged, tagPrefix_self_append]
  · intro env fi ocr hext hdep
    unfold extractTextFromPath
    rw [hext]
    rw [if_neg (by decide), if_neg (by decide), if_neg (by decide), if_neg (by decide),
      if_neg (by decide), if_pos rfl]
    unfold readPptxM
    simp [hdep, mkTagged, tagPrefix_self_append]
  · intro env fi himg hdep
    unfold extractTextFromPath
    have hmem : fi.ext ∈ IMG_EXTS := by
      obtain ⟨a, ha, hab⟩ := List.contains_iff_exists_mem_beq.mp himg
      rw [beq_iff_eq] at hab
      rw [hab]
      exact ha
    have hnotxt : ¬ (TEXT_EXTS.contains fi.ext = true) := by
      intro hc
      obtain ⟨a, ha, hab⟩ := List.contains_iff_exists_mem_beq.mp hc
      rw [beq_iff_eq] at hab
      have hdisj : ∀ x ∈ IMG_EXTS, x ∉ TEXT_EXTS := by decide
      exact hdisj fi.ext hmem (hab ▸ ha)
    have hne : ∀ e ∈ ([".csv", ".tsv", ".xlsx", ".docx", ".pptx", ".pdf"] : List String),
        fi.ext ≠ e := by
      intro e he hc
      have hdisj : ∀ x ∈ IMG_EXTS,
          x ∉ ([".csv", ".tsv", ".xlsx", ".docx", ".pptx", ".pdf"] : List String) := by decide
      exact hdisj fi.ext hmem (hc ▸ he)
    rw [if_neg hnotxt, if_neg (hne ".csv" (by decide)),
      if_neg (hne ".tsv" (by decide)), if_neg (hne ".xlsx" (by decide)),
      if_neg (hne ".docx" (by decide)), if_neg (hne ".pptx" (by decide)),
      if_neg (hne ".pdf" (by decide))]
    simp only [himg, if_true]
    unfold readImageM
    simp only [Bool.not_true, Bool.false_eq_true, if_false]
    rw [hdep]
    simp [mkTagged, tagPrefix_self_append]
  · intro env fi himg
    unfold extractTextFromPath
    have hmem : fi.ext ∈ IMG_EXTS := by
      obtain ⟨a, ha, hab⟩ := List.contains_iff_exists_mem_beq.mp himg
      rw [beq_iff_eq] at hab
      rw [hab]
      exact ha
    have hnotxt : ¬ (TEXT_EXTS.contains fi.ext = true) := by
      intro hc
      obtain ⟨a, ha, hab⟩ := List.contains_iff_exists_mem_beq.mp hc
      rw [beq_iff_eq] at hab
      have hdisj : ∀ x ∈ IMG_EXTS, x ∉ TEXT_EXTS := by decide
      exact hdisj fi.ext hmem (hab ▸ ha)
    have hne : ∀ e ∈ ([".csv", ".tsv", ".xlsx", ".docx", ".pptx", ".pdf"] : List String),
        fi.ext ≠ e := by
      intro e he hc
      have hdisj : ∀ x ∈ IMG_EXTS,
          x ∉ ([".csv", ".tsv", ".xlsx", ".docx", ".pptx", ".pdf"] : List String) := by decide
      exact hdisj fi.ext hmem (hc ▸ he)
    rw [if_neg hnotxt, if_neg (hne ".csv" (by decide)),
      if_neg (hne ".tsv" (by decide)), if_neg (hne ".xlsx" (by decide)),
      if_neg (hne ".docx" (by decide)), if_neg (hne ".pptx" (by decide)),
      if_neg (hne ".pdf" (by decide))]
    simp only [himg, if_true]
    unfold readImageM
    simp [mkTagged, tagPrefix_self_append]

def c4CexFi : FileInput := ⟨".txt", "empty.txt", .ok "", .ok 0, true⟩

def c4CexEnv : DecoderEnv :=
  ⟨.error "na", false, .error "na", false, .error "na", false, .error "na",
   .error "na", .error "na", false, false, .error "na", .error "na", .error "na"⟩

/-- C4 counterexample: an empty (but readable) `.txt` file extracts to the
empty string, which is neither non-empty nor tagged — refuting the
never-empty-untagged part of the claim. -/
theorem c4_counterexample :
    extractTextFromPath c4CexEnv c4CexFi false = "" ∧ isTagged "" = false := by
  refine ⟨by decide, by decide⟩

def c4WitFi : FileInput := ⟨".xlsx", "book.xlsx", .error "binary", .ok 10, false⟩

/-- C4 witness: the missing-dependency and tagged-or-decoded facts at a
concrete file. -/
theorem c4_witness :
    (isTagged (extractTextFromPath c4CexEnv c4WitFi false) = true ∨
      DecodeOk c4CexEnv c4WitFi (extractTextFromPath c4CexEnv c4WitFi false)) ∧
    tagPrefix "[missing]" (extractTextFromPath c4CexEnv c4WitFi false) = true :=
  ⟨c4_extract_tagged_or_decoded.1 c4CexEnv c4WitFi false,
   c4_extract_tagged_or_decoded.2.1 c4CexEnv c4WitFi false rfl rfl⟩

/-! ## `app/jobs.py`: the `Job` dataclass and the in-memory registry

A Python object is modelled as its attribute map (an association list with
at most one binding per name maintained by `upsertA`); the registry maps a
job id to such a map.  The two `time()` calls in the dataclass field
defaults run once, at module import: they are the parameters `importT1`
(for `created_at`) and `importT2` (for `updated_at`), while the clock value
at construction time is a separate parameter the constructor ignores. -/

abbrev JobAttrs : Type := List (String × JVal)

/-- Attribute read. -/
def attrGet (job : JobAttrs) (k : String) : Option JVal :=
  (job.find? (fun p => p.1 == k)).map (fun p => p.2)

/-- `setattr`: replace the first binding or append a new one. -/
def upsertA : JobAttrs → String → JVal → JobAttrs
  | [], k, v => [(k, v)]
  | (k0, v0) :: rest, k, v =>
    if k0 = k then (k0, v) :: rest else (k0, v0) :: upsertA rest k v

/-- `Job(id=...)`: every field takes its default except `id`; the
`created_at`/`updated_at` defaults are the import-time clock reads, not
`constructionTime`. -/
def mkJob (importT1 importT2 constructionTime : ℚ) (id : String) : JobAttrs :=
  [("id", .str id), ("status", .str "PENDING"), ("progress", .int 0),
   ("file_path", .null), ("result_path", .null), ("error", .null),
   ("created_at", .num importT1), ("updated_at", .num importT2)]

/-- The registry `_JOBS`. -/
abbrev Registry : Type := List (String × JobAttrs)

/-- `create_job`: `_JOBS[job.id] = job`. -/
def createJob (reg : Registry) (id : String) (job : JobAttrs) : Registry :=
  (id, job) :: reg.filter (fun p => p.1 ≠ id)

/-- `get_job`: `_JOBS.get(job_id)`. -/
def getJob (reg : Registry) (id : String) : Option JobAttrs :=
  (reg.find? (fun p => p.1 == id)).map (fun p => p.2)

/-- The `setattr` loop of `update_job` over the keyword arguments, in
order. -/
def applyFields (job : JobAttrs) (fields : List (String × JVal)) : JobAttrs :=
  fields.foldl (fun j p => upsertA j p.1 p.2) job

/-- `update_job(job_id, **fields)`: `KeyError` when the id is absent,
otherwise set the given fields then `updated_at = time()`. -/
def updateJob (reg : Registry) (id : String) (fields : List (String × JVal)) (now : ℚ) :
    Except PyErr Registry :=
  match getJob reg id with
  | none => .error (.keyError id)
  | some job =>
    let job2 := upsertA (applyFields job fields) "updated_at" (.num now)
    .ok (reg.map (fun p => if p.1 = id then (p.1, job2) else p))

/-- The last (winning) binding of `k` among the `setattr` arguments. -/
def lastField (fields : List (String × JVal)) (k : String) : Option JVal :=
  (fields.reverse.find? (fun p => p.1 == k)).map (fun p => p.2)

theorem attrGet_upsertA (job : JobAttrs) (k : String) (v : JVal) (x : String) :
    attrGet (upsertA job k v) x = if x = k then some v else attrGet job x := by
  induction job with
  | nil =>
    by_cases h : x = k
    · subst h
      simp [upsertA, attrGet, List.find?]
    · have hbe : (k == x) = false := beq_eq_false_iff_ne.mpr (fun hc => h hc.symm)
      simp [upsertA, attrGet, List.find?, hbe, h]
  | cons p rest ih =>
    obtain ⟨k0, v0⟩ := p
    by_cases h0 : k0 = k
    · subst h0
      by_cases hx : x = k0
      · subst hx
        simp [upsertA, attrGet, List.find?]
      · have hbe : (k0 == x) = false := beq_eq_false_iff_ne.mpr (fun hc => hx hc.symm)
        simp [upsertA, attrGet, List.find?, hbe, hx]
    · by_cases hx : x = k0
      · have hbe : (k0 == x) = true := beq_iff_eq.mpr hx.symm
        have hxk : ¬ x = k := fun hc => h0 (hx.symm.trans hc ▸ rfl)
        simp [upsertA, if_neg h0, attrGet, List.find?, hbe, hxk]
      · have hbe : (k0 == x) = false := beq_eq_false_iff_ne.mpr (fun hc => hx hc.symm)
        simp only [upsertA, if_neg h0, attrGet, List.find?, hbe]
        simp only [attrGet] at ih
        exact ih

theorem attrGet_applyFields (fields : List (String × JVal)) (job : JobAttrs) (x : String) :
    attrGet (applyFields job fields) x =
      match lastField fields x with
      | some v => some v
      | none => attrGet job x := by
  induction fields generalizing job with
  | nil => simp [applyFields, lastField, List.find?]
  | cons p rest ih =>
    obtain ⟨k, v⟩ := p
    have hfold : applyFields job ((k, v) :: rest) = applyFields (upsertA job k v) rest := by
      simp [applyFields]
    rw [hfold, ih]
    have hlast : lastField ((k, v) :: rest) x =
        match lastField rest x with
        | some w => some w
        | none => if k = x then some v else none := by
      unfold lastField
      simp only [List.reverse_cons]
      rw [List.find?_append]
      cases hr : (rest.reverse.find? (fun p => p.1 == x)) with
      | some w => simp [Option.orElse]
      | none =>
        by_cases hk : k = x
        · subst hk
          simp [Option.orElse, List.find?]
        · have hbe : ((k, v).1 == x) = false := beq_eq_false_iff_ne.mpr hk
          simp [Option.orElse, List.find?, hbe, hk]
    rw [hlast]
    cases hr : lastField rest x with
    | some w => simp
    | none =>
      simp only []
      rw [attrGet_upsertA]
      by_cases hk : x = k
      · subst hk
        simp
      · have hkx : ¬ (k = x) := fun hc => hk hc.symm
        simp [if_neg hk, hkx]

theorem getJob_updateJob {reg : Registry} {id : String} {job : JobAttrs}
    (h : getJob reg id = some job) (fields : List (String × JVal)) (now : ℚ) :
    updateJob reg id fields now =
      .ok (reg.map
        (fun p => if p.1 = id then (p.1, upsertA (applyFields job fields) "updated_at"
          (.num now)) else p)) := by
  unfold updateJob
  rw [h]

theorem getJob_map_replace (reg : Registry) (id : String) (job2 : JobAttrs) :
    ∀ x, getJob (reg.map (fun p => if p.1 = id then (p.1, job2) else p)) x =
      if (getJob reg x).isSome ∧ x = id then some job2 else getJob reg x := by
  intro x
  induction reg with
  | nil => simp [getJob]
  | cons p rest ih =>
    obtain ⟨k, j⟩ := p
    by_cases hk : k = id
    · subst hk
      by_cases hx : x = k
      · subst hx
        simp [getJob, List.find?, Option.isSome]
      · have hbe : (k == x) = false := beq_eq_false_iff_ne.mpr (fun hc => hx hc.symm)
        simp only [List.map_cons, getJob, List.find?, if_true, hbe]
        simp only [getJob] at ih
        try rw [ih]
        try simp [hx]
    · by_cases hx : x = k
      · subst hx
        have hbe : (x == x) = true := by simp
        simp only [List.map_cons, if_neg hk, getJob, List.find?, hbe]
        have hxid : ¬ (x = id) := hk
        simp [Option.isSome, hxid]
      · have hbe : (k == x) = false := beq_eq_false_iff_ne.mpr (fun hc => hx hc.symm)
        simp only [List.map_cons, if_neg hk, getJob, List.find?, hbe]
        simp only [getJob] at ih
        exact ih

/-- C9 (amended): the `created_at`/`updated_at` defaults are bound to the
two import-time `time()` reads, so all jobs constructed without explicit
timestamps share the same `created_at` and the same `updated_at`, and
`created_at` is independent of the construction-time clock (it does not
reflect the job's actual creation time); `created_at = updated_at` however
only holds when the two import-time reads coincide. -/
theorem c9_job_timestamps (importT1 importT2 t1 t2 : ℚ) (id1 id2 : String) :
    attrGet (mkJob importT1 importT2 t1 id1) "created_at" =
      attrGet (mkJob importT1 importT2 t2 id2) "created_at" ∧
    attrGet (mkJob importT1 importT2 t1 id1) "updated_at" =
      attrGet (mkJob importT1 importT2 t2 id2) "updated_at" ∧
    attrGet (mkJob importT1 importT2 t1 id1) "created_at" = some (.num importT1) ∧
    attrGet (mkJob importT1 importT2 t1 id1) "updated_at" = some (.num importT2) := by
  refine ⟨rfl, rfl, rfl, rfl⟩

/-- C9 counterexample: when the two import-time clock reads differ (here 0
and 1), a job's `created_at` and `updated_at` are not equal, refuting the
`j1.created_at == j1.updated_at` part of the claim. -/
theorem c9_counterexample :
    attrGet (mkJob 0 1 5 "j1") "created_at" ≠ attrGet (mkJob 0 1 5 "j1") "updated_at" := by
  decide

/-- C10: `get_job` returns `None` for an absent id while `update_job`
raises `KeyError`; for a registered id, `update_job` rebinds exactly the
passed fields (last write wins) plus `updated_at`, leaving every other
attribute and every other job unchanged. -/
theorem c10_registry_lookup_update (reg : Registry) (id : String)
    (fields : List (String × JVal)) (now : ℚ) :
    (getJob reg id = none → updateJob reg id fields now = .error (.keyError id)) ∧
    (∀ job, getJob reg id = some job →
      ∃ reg2, updateJob reg id fields now = .ok reg2 ∧
        (∀ id2, id2 ≠ id → getJob reg2 id2 = getJob reg id2) ∧
        ∃ job2, getJob reg2 id = some job2 ∧
          attrGet job2 "updated_at" = some (.num now) ∧
          (∀ k, k ≠ "updated_at" →
            attrGet job2 k =
              match lastField fields k with
              | some v => some v
              | none => attrGet job k)) := by
  constructor
  · intro h
    unfold updateJob
    rw [h]
  · intro job h
    refine ⟨_, getJob_updateJob h fields now, ?_, ?_⟩
    · intro id2 hne
      rw [getJob_map_replace reg id _ id2]
      simp [hne]
    · refine ⟨upsertA (applyFields job fields) "updated_at" (.num now), ?_, ?_, ?_⟩
      · rw [getJob_map_replace reg id _ id]
        simp [h, Option.isSome]
      · rw [attrGet_upsertA]
        simp
      · intro k hk
        rw [attrGet_upsertA, if_neg hk, attrGet_applyFields]

def c10Reg : Registry := [("j1", mkJob 10 10 10 "j1"), ("j2", mkJob 10 10 10 "j2")]

/-- C10 witness: lookup and update at a concrete registry. -/
theorem c10_witness :
    (getJob c10Reg "nope" = none → updateJob c10Reg "nope" [] 11 =
      .error (.keyError "nope")) ∧
    (getJob c10Reg "j1" = some (mkJob 10 10 10 "j1") ∧
      ∃ reg2, updateJob c10Reg "j1" [("status", .str "PROCESSING"), ("progress", .int 0)] 11 =
          .ok reg2 ∧
        (∀ id2, id2 ≠ "j1" → getJob reg2 id2 = getJob c10Reg id2) ∧
        ∃ job2, getJob reg2 "j1" = some job2 ∧
          attrGet job2 "updated_at" = some (.num 11) ∧
          (∀ k, k ≠ "updated_at" →
            attrGet job2 k =
              match lastField [("status", JVal.str "PROCESSING"), ("progress", JVal.int 0)] k with
              | some v => some v
              | none => attrGet (mkJob 10 10 10 "j1") k)) :=
  ⟨(c10_registry_lookup_update c10Reg "nope" [] 11).1,
   ⟨by decide,
    (c10_registry_lookup_update c10Reg "j1"
      [("status", .str "PROCESSING"), ("progress", .int 0)] 11).2
      (mkJob 10 10 10 "j1") (by decide)⟩⟩

/-! ## `process_job` (`app/services/tasks.py`)

The filesystem and external services are abstracted into parameters: the
existence of the job's `in/` directory, the outcome of
`walk_and_extract` (a list of (source, text) pairs, or the exception it
raised), the outcome of constructing the `RAGIndex`, and per-document
`add_document` outcomes.  `cleanup_job_in` never raises (it passes
`ignore_errors=True` to `shutil.rmtree` and is guarded by `exists()`), so
the `finally` block is modelled as a flag that is set on every path.
State mutation matters: updates applied before an exception persist, so
the try-body threads the registry explicitly and returns the exception
separately instead of using `Except`. -/

def pyErrStr : PyErr → String
  | .valueError m => m
  | .typeError m => m
  | .attrError m => m
  | .keyError m => m

/-- The `total_chunks` accumulation loop over the extracted files. -/
def foldAdd (addDoc : String → String → Except PyErr Nat) :
    List (String × String) → Except PyErr Nat
  | [] => .ok 0
  | p :: rest => do
    let n ← addDoc p.1 p.2
    let m ← foldAdd addDoc rest
    .ok (n + m)

/-- The `try:` body of `process_job`; the second component is the escaped
exception, if any, and the first the registry as mutated so far. -/
def processJobTry (reg0 : Registry) (jobId : String) (now : ℚ)
    (inRootExists : Bool)
    (extractResult : Except PyErr (List (String × String)))
    (ragInit : Except PyErr Unit)
    (addDoc : String → String → Except PyErr Nat) : Registry × Option PyErr :=
  match updateJob reg0 jobId [("status", .str "PROCESSING"), ("progress", .int 0)] now with
  | .error e => (reg0, some e)
  | .ok reg1 =>
    if !inRootExists then
      match updateJob reg1 jobId
        [("status", .str "FAILED"), ("error", .str "Input directory missing")] now with
      | .error e => (reg1, some e)
      | .ok r => (r, none)
    else
      match updateJob reg1 jobId [("progress", .int 10)] now with
      | .error e => (reg1, some e)
      | .ok reg2 =>
        match extractResult with
        | .error e => (reg2, some e)
        | .ok files =>
          if files.isEmpty then
            match updateJob reg2 jobId
              [("status", .str "FAILED"), ("error", .str "No text extracted from files")] now with
            | .error e => (reg2, some e)
            | .ok r => (r, none)
          else
            match updateJob reg2 jobId [("progress", .int 40)] now with
            | .error e => (reg2, some e)
            | .ok reg3 =>
              match ragInit with
              | .error e => (reg3, some e)
              | .ok _ =>
                match foldAdd addDoc files with
                | .error e => (reg3, some e)
                | .ok total =>
                  match updateJob reg3 jobId
                    [("status", .str "SUCCEEDED"), ("progress", .int 100),
                     ("chunks_indexed", .int total)] now with
                  | .error e => (reg3, some e)
                  | .ok r => (r, none)

/-- `process_job`: the try body, the `except Exception` handler (which
marks the job FAILED with `str(e)` — and whose own `KeyError` would
escape), and the `finally` cleanup flag. -/
def processJob (reg0 : Registry) (jobId : String) (now : ℚ)
    (inRootExists : Bool)
    (extractResult : Except PyErr (List (String × String)))
    (ragInit : Except PyErr Unit)
    (addDoc : String → String → Except PyErr Nat) : Registry × Option PyErr × Bool :=
  let tr := processJobTry reg0 jobId now inRootExists extractResult ragInit addDoc
  match tr.2 with
  | none => (tr.1, none, true)
  | some e =>
    match updateJob tr.1 jobId
      [("status", .str "FAILED"), ("error", .str (pyErrStr e))] now with
    | .ok reg2 => (reg2, none, true)
    | .error e2 => (tr.1, some e2, true)

/-- The job's attribute as seen through the registry. -/
def jobField (reg : Registry) (id k : String) : Option JVal :=
  (getJob reg id).bind (fun j => attrGet j k)

theorem updateJob_spec {reg : Registry} {id : String} {job : JobAttrs}
    (h : getJob reg id = some job) (fields : List (String × JVal)) (now : ℚ) :
    ∃ reg2, updateJob reg id fields now = .ok reg2 ∧
      getJob reg2 id = some (upsertA (applyFields job fields) "updated_at" (.num now)) ∧
      ∀ id2, id2 ≠ id → getJob reg2 id2 = getJob reg id2 := by
  refine ⟨_, getJob_updateJob h fields now, ?_, ?_⟩
  · rw [getJob_map_replace reg id _ id]
    simp [h, Option.isSome]
  · intro id2 hne
    rw [getJob_map_replace reg id _ id2]
    simp [hne]

theorem attrGet_after (job : JobAttrs) (fields : List (String × JVal)) (now : ℚ)
    (k : String) (hk : k ≠ "updated_at") :
    attrGet (upsertA (applyFields job fields) "updated_at" (.num now)) k =
      match lastField fields k with
      | some v => some v
      | none => attrGet job k := by
  rw [attrGet_upsertA, if_neg hk, attrGet_applyFields]

/-- C5: for a registered job id, `process_job` never lets an exception
escape and always reaches the cleanup; the job ends FAILED with the
descriptive error when the input directory is absent, when extraction
yields no documents, or with the exception's message when extraction, index
construction or indexing raises; and on full success it ends SUCCEEDED
with progress 100 and the accumulated chunk count attached. -/
theorem c5_processJob (reg0 : Registry) (jobId : String) (now : ℚ)
    (inRootExists : Bool) (extractResult : Except PyErr (List (String × String)))
    (ragInit : Except PyErr Unit) (addDoc : String → String → Except PyErr Nat)
    (job0 : JobAttrs) (hreg : getJob reg0 jobId = some job0) :
    ∀ regF exc clean,
      processJob reg0 jobId now inRootExists extractResult ragInit addDoc =
        (regF, exc, clean) →
      exc = none ∧ clean = true ∧
      (inRootExists = false →
        jobField regF jobId "status" = some (.str "FAILED") ∧
        jobField regF jobId "error" = some (.str "Input directory missing")) ∧
      (inRootExists = true → ∀ e, extractResult = .error e →
        jobField regF jobId "status" = some (.str "FAILED") ∧
        jobField regF jobId "error" = some (.str (pyErrStr e))) ∧
      (inRootExists = true → extractResult = .ok [] →
        jobField regF jobId "status" = some (.str "FAILED") ∧
        jobField regF jobId "error" = some (.str "No text extracted from files")) ∧
      (inRootExists = true → ∀ files, extractResult = .ok files → files ≠ [] →
        (∀ e, ragInit = .error e →
          jobField regF jobId "status" = some (.str "FAILED") ∧
          jobField regF jobId "error" = some (.str (pyErrStr e))) ∧
        (∀ u, ragInit = .ok u →
          (∀ e, foldAdd addDoc files = .error e →
            jobField regF jobId "status" = some (.str "FAILED") ∧
            jobField regF jobId "error" = some (.str (pyErrStr e))) ∧
          (∀ total, foldAdd addDoc files = .ok total →
            jobField regF jobId "status" = some (.str "SUCCEEDED") ∧
            jobField regF jobId "progress" = some (.int 100) ∧
            jobField regF jobId "chunks_indexed" = some (.int total)))) := by
  obtain ⟨reg1, hu1, hg1, _⟩ := updateJob_spec hreg
    [("status", .str "PROCESSING"), ("progress", .int 0)] now
  unfold processJob processJobTry
  rw [hu1]
  by_cases hroot : inRootExists = true
  · rw [hroot]
    simp only [Bool.not_true, Bool.false_eq_true, if_false]
    obtain ⟨reg2, hu2, hg2, _⟩ := updateJob_spec hg1 [("progress", .int 10)] now
    rw [hu2]
    cases extractResult with
    | error e =>
      obtain ⟨reg3, hu3, hg3, _⟩ := updateJob_spec hg2
        [("status", .str "FAILED"), ("error", .str (pyErrStr e))] now
      simp only []
      rw [hu3]
      intro regF exc clean hout
      simp only [Prod.mk.injEq] at hout
      obtain ⟨hrF, hexc, hcl⟩ := hout
      subst hrF
      refine ⟨hexc.symm, hcl.symm, by simp [hroot], ?_, by simp, by simp⟩
      intro _ e2 he2
      simp only [Except.error.injEq] at he2
      subst he2
      constructor
      · unfold jobField
        rw [hg3]
        simp only [Option.bind]
        rw [attrGet_after _ _ _ _ (by decide)]
        rfl
      · unfold jobField
        rw [hg3]
        simp only [Option.bind]
        rw [attrGet_after _ _ _ _ (by decide)]
        rfl
    | ok files =>
      cases files with
      | nil =>
        simp only [List.isEmpty_nil, if_true]
        obtain ⟨reg3, hu3, hg3, _⟩ := updateJob_spec hg2
          [("status", .str "FAILED"), ("error", .str "No text extracted from files")] now
        rw [hu3]
        intro regF exc clean hout
        simp only [Prod.mk.injEq] at hout
        obtain ⟨hrF, hexc, hcl⟩ := hout
        subst hrF
        refine ⟨hexc.symm, hcl.symm, by simp [hroot], by simp, ?_, ?_⟩
        · intro _ _
          constructor
          · unfold jobField
            rw [hg3]
            simp only [Option.bind]
            rw [attrGet_after _ _ _ _ (by decide)]
            rfl
          · unfold jobField
            rw [hg3]
            simp only [Option.bind]
            rw [attrGet_after _ _ _ _ (by decide)]
            rfl
        · intro _ files2 hf2 hne
          simp only [Except.ok.injEq] at hf2
          exact absurd hf2.symm hne
      | cons f frest =>
        simp only [List.isEmpty_cons, Bool.false_eq_true, if_false]
        obtain ⟨reg3, hu3, hg3, _⟩ := updateJob_spec hg2 [("progress", .int 40)] now
        rw [hu3]
        cases ragInit with
        | error e =>
          obtain ⟨reg4, hu4, hg4, _⟩ := updateJob_spec hg3
            [("status", .str "FAILED"), ("error", .str (pyErrStr e))] now
          simp only []
          rw [hu4]
          intro regF exc clean hout
          simp only [Prod.mk.injEq] at hout
          obtain ⟨hrF, hexc, hcl⟩ := hout
          subst hrF
          refine ⟨hexc.symm, hcl.symm, by simp [hroot], by simp, by simp, ?_⟩
          intro _ files2 hf2 _
          simp only [Except.ok.injEq] at hf2
          subst hf2
          refine ⟨?_, ?_⟩
          · intro e2 he2
            simp only [Except.error.injEq] at he2
            subst he2
            constructor
            · unfold jobField
              rw [hg4]
              simp only [Option.bind]
              rw [attrGet_after _ _ _ _ (by decide)]
              rfl
            · unfold jobField
              rw [hg4]
              simp only [Option.bind]
              rw [attrGet_after _ _ _ _ (by decide)]
              rfl
          · intro u hu
            cases hu
        | ok u0 =>
          cases hfold : foldAdd addDoc (f :: frest) with
          | error e =>
            obtain ⟨reg4, hu4, hg4, _⟩ := updateJob_spec hg3
              [("status", .str "FAILED"), ("error", .str (pyErrStr e))] now
            simp only []
            rw [hu4]
            intro regF exc clean hout
            simp only [Prod.mk.injEq] at hout
            obtain ⟨hrF, hexc, hcl⟩ := hout
            subst hrF
            refine ⟨hexc.symm, hcl.symm, by simp [hroot], by simp, by simp, ?_⟩
            intro _ files2 hf2 _
            simp only [Except.ok.injEq] at hf2
            subst hf2
            refine ⟨?_, ?_⟩
            · intro e2 he2
              cases he2
            · intro u hu
              refine ⟨?_, ?_⟩
              · intro e2 he2
                rw [hfold] at he2
                simp only [Except.error.injEq] at he2
                subst he2
                constructor
                · unfold jobField
                  rw [hg4]
                  simp only [Option.bind]
                  rw [attrGet_after _ _ _ _ (by decide)]
                  rfl
                · unfold jobField
                  rw [hg4]
                  simp only [Option.bind]
                  rw [attrGet_after _ _ _ _ (by decide)]
                  rfl
              · intro total htot
                rw [hfold] at htot
                cases htot
          | ok total =>
            obtain ⟨reg4, hu4, hg4, _⟩ := updateJob_spec hg3
              [("status", .str "SUCCEEDED"), ("progress", .int 100),
               ("chunks_indexed", .int total)] now
            simp only []
            rw [hu4]
            intro regF exc clean hout
            simp only [Prod.mk.injEq] at hout
            obtain ⟨hrF, hexc, hcl⟩ := hout
            subst hrF
            refine ⟨hexc.symm, hcl.symm, by simp [hroot], by simp, by simp, ?_⟩
            intro _ files2 hf2 _
            simp only [Except.ok.injEq] at hf2
            subst hf2
            refine ⟨?_, ?_⟩
            · intro e2 he2
              cases he2
            · intro u hu
              refine ⟨?_, ?_⟩
              · intro e2 he2
                rw [hfold] at he2
                cases he2
              · intro total2 htot
                rw [hfold] at htot
                simp only [Except.ok.injEq] at htot
                subst htot
                refine ⟨?_, ?_, ?_⟩
                · unfold jobField
                  rw [hg4]
                  simp only [Option.bind]
                  rw [attrGet_after _ _ _ _ (by decide)]
                  rfl
                · unfold jobField
                  rw [hg4]
                  simp only [Option.bind]
                  rw [attrGet_after _ _ _ _ (by decide)]
                  rfl
                · unfold jobField
                  rw [hg4]
                  simp only [Option.bind]
                  rw [attrGet_after _ _ _ _ (by decide)]
                  rfl
  · have hroot2 : inRootExists = false := by
      cases hb : inRootExists
      · rfl
      · exact absurd hb hroot
    rw [hroot2]
    simp only [Bool.not_false, if_true]
    obtain ⟨reg2, hu2, hg2, _⟩ := updateJob_spec hg1
      [("status", .str "FAILED"), ("error", .str "Input directory missing")] now
    rw [hu2]
    intro regF exc clean hout
    simp only [Prod.mk.injEq] at hout
    obtain ⟨hrF, hexc, hcl⟩ := hout
    subst hrF
    refine ⟨hexc.symm, hcl.symm, ?_, by simp [hroot2], by simp [hroot2], by simp [hroot2]⟩
    intro _
    constructor
    · unfold jobField
      rw [hg2]
      simp only [Option.bind]
      rw [attrGet_after _ _ _ _ (by decide)]
      rfl
    · unfold jobField
      rw [hg2]
      simp only [Option.bind]
      rw [attrGet_after _ _ _ _ (by decide)]
      rfl

def c5Reg : Registry := [("jobA", mkJob 0 0 0 "jobA")]

def c5Out : Registry × Option PyErr × Bool :=
  processJob c5Reg "jobA" 1 true (.ok [("f.txt", "hello")]) (.ok ()) (fun _ _ => .ok 3)

/-- C5 witness: a concrete successful run reaches SUCCEEDED with the chunk
count, no escaped exception, and the cleanup flag set. -/
theorem c5_witness :
    c5Out.2.1 = none ∧ c5Out.2.2 = true ∧
    jobField c5Out.1 "jobA" "status" = some (.str "SUCCEEDED") ∧
    jobField c5Out.1 "jobA" "progress" = some (.int 100) ∧
    jobField c5Out.1 "jobA" "chunks_indexed" = some (.int 3) := by
  have h := c5_processJob c5Reg "jobA" 1 true (.ok [("f.txt", "hello")]) (.ok ())
    (fun _ _ => .ok 3) (mkJob 0 0 0 "jobA") (by decide)
    c5Out.1 c5Out.2.1 c5Out.2.2 rfl
  have hD := h.2.2.2.2.2 rfl [("f.txt", "hello")] rfl (by decide)
  have hS := (hD.2 () rfl).2 3 (by decide)
  exact ⟨h.1, h.2.1, hS.1, hS.2.1, hS.2.2⟩

/-
C7: `_stable_id` and `RAGIndex.add_document` (src/app/services/rag.py).

`_stable_id(docset_id, source, i)` is
`f"{docset_id}-{hashlib.sha1(f"{docset_id}|{source}|{i}".encode()).hexdigest()[:24]}"`.
We model `hashlib.sha1` by a full SHA-1 implementation over `Nat` byte lists
(FIPS 180: pad to 64-byte blocks with 0x80, zeros and the 64-bit big-endian
bit length; 80 rounds per block on five 32-bit words), `.encode()` by UTF-8
encoding of the format string, `hexdigest()` by lower-case hex of the 20
digest bytes, and `[:24]` by `List.take 24`.

`add_document` chunks the text with `_chunk_text` (default parameters),
returns 0 without touching the collection when there are no chunks, and
otherwise upserts `(stable_id, chunk, metadata)` rows keyed by id.  The
ChromaDB collection is external to this repository, so its upsert is modelled
per its documented key-value semantics: a map from id to stored row in which
upsert overwrites the row at each given id (last write wins within one call)
and leaves every other id unchanged.
-/

/-- Left-rotation of a 32-bit word (`rotl32 n w` for `w < 2^32`, result
reduced mod `2^32`). -/
def rotl32 (n w : Nat) : Nat :=
  (w * 2 ^ n + w / 2 ^ (32 - n)) % 2 ^ 32

/-- Big-endian packing of bytes into 32-bit words (the padded message length
is a multiple of 64, so a multiple of 4). -/
def bytesToWords : List Nat → List Nat
  | b0 :: b1 :: b2 :: b3 :: rest =>
    (b0 * 2 ^ 24 + b1 * 2 ^ 16 + b2 * 2 ^ 8 + b3) % 2 ^ 32 :: bytesToWords rest
  | _ => []

/-- Message-schedule extension: append `n` more words, each the 1-bit
rotation of the xor of the words 3, 8, 14 and 16 positions back. -/
def extendWords : List Nat → Nat → List Nat
  | ws, 0 => ws
  | ws, n + 1 =>
    extendWords
      (ws ++ [rotl32 1 (((ws.getD (ws.length - 3) 0) ^^^ (ws.getD (ws.length - 8) 0)) ^^^
        ((ws.getD (ws.length - 14) 0) ^^^ (ws.getD (ws.length - 16) 0)))]) n

/-- The SHA-1 round function, by round number. -/
def sha1F (t b c d : Nat) : Nat :=
  if t < 20 then (b &&& c) ||| ((b ^^^ 0xFFFFFFFF) &&& d)
  else if t < 40 then (b ^^^ c) ^^^ d
  else if t < 60 then ((b &&& c) ||| (b &&& d)) ||| (c &&& d)
  else (b ^^^ c) ^^^ d

/-- The SHA-1 round constant, by round number. -/
def sha1K (t : Nat) : Nat :=
  if t < 20 then 0x5A827999
  else if t < 40 then 0x6ED9EBA1
  else if t < 60 then 0x8F1BBCDC
  else 0xCA62C1D6

/-- The 80 SHA-1 rounds over the extended schedule, starting at round `t`. -/
def sha1Rounds : List Nat → Nat → Nat × Nat × Nat × Nat × Nat → Nat × Nat × Nat × Nat × Nat
  | [], _, st => st
  | w :: ws, t, (a, b, c, d, e) =>
    sha1Rounds ws (t + 1)
      ((rotl32 5 a + sha1F t b c d + e + sha1K t + w) % 2 ^ 32, a, rotl32 30 b, c, d)

/-- One SHA-1 block step: run the 80 rounds and add the result into the
running state, mod `2^32` per word. -/
def sha1Block (hs : Nat × Nat × Nat × Nat × Nat) (block : List Nat) :
    Nat × Nat × Nat × Nat × Nat :=
  match hs, sha1Rounds (extendWords (bytesToWords block) 64) 0 hs with
  | (h0, h1, h2, h3, h4), (a, b, c, d, e) =>
    ((h0 + a) % 2 ^ 32, (h1 + b) % 2 ^ 32, (h2 + c) % 2 ^ 32,
     (h3 + d) % 2 ^ 32, (h4 + e) % 2 ^ 32)

/-- Split a byte list into 64-byte blocks; the fuel is the list length, which
bounds the number of blocks. -/
def toBlocksAux : Nat → List Nat → List (List Nat)
  | 0, _ => []
  | _, [] => []
  | fuel + 1, l => l.take 64 :: toBlocksAux fuel (l.drop 64)

/-- Split a byte list into 64-byte blocks. -/
def toBlocks (l : List Nat) : List (List Nat) :=
  toBlocksAux l.length l

/-- The 64-bit big-endian representation of the bit length. -/
def lenBytes (L : Nat) : List Nat :=
  [L / 2 ^ 56 % 256, L / 2 ^ 48 % 256, L / 2 ^ 40 % 256, L / 2 ^ 32 % 256,
   L / 2 ^ 24 % 256, L / 2 ^ 16 % 256, L / 2 ^ 8 % 256, L % 256]

/-- SHA-1 padding: `0x80`, then zeros to 56 mod 64, then the 64-bit
big-endian bit length (`8 *` the byte length). -/
def padMsg (ms : List Nat) : List Nat :=
  ms ++ 128 :: (List.replicate ((119 - ms.length % 64) % 64) 0 ++ lenBytes (8 * ms.length))

/-- The five 32-bit words of the SHA-1 digest of a byte list. -/
def sha1Words (ms : List Nat) : Nat × Nat × Nat × Nat × Nat :=
  (toBlocks (padMsg ms)).foldl sha1Block
    (0x67452301, 0xEFCDAB89, 0x98BADCFE, 0x10325476, 0xC3D2E1F0)

/-- Big-endian bytes of one 32-bit word. -/
def wordBytes (w : Nat) : List Nat :=
  [w / 2 ^ 24 % 256, w / 2 ^ 16 % 256, w / 2 ^ 8 % 256, w % 256]

/-- The 20 digest bytes from the five final words. -/
def digestBytes : Nat × Nat × Nat × Nat × Nat → List Nat
  | (a, b, c, d, e) =>
    wordBytes a ++ (wordBytes b ++ (wordBytes c ++ (wordBytes d ++ wordBytes e)))

/-- SHA-1 of a byte list, as 20 bytes. -/
def sha1Bytes (ms : List Nat) : List Nat :=
  digestBytes (sha1Words ms)

/-- Lower-case hex digit. -/
def hexDigit (n : Nat) : Char :=
  if n < 10 then Char.ofNat (48 + n) else Char.ofNat (87 + n)

/-- Two hex digits of a byte. -/
def hexByte (b : Nat) : List Char :=
  [hexDigit (b / 16), hexDigit (b % 16)]

/-- Lower-case hex string of a byte list. -/
def hexOfBytes (bs : List Nat) : List Char :=
  bs.foldr (fun b acc => hexByte b ++ acc) []

/-- `hashlib.sha1(ms).hexdigest()` as a character list. -/
def sha1Hex (ms : List Nat) : List Char :=
  hexOfBytes (sha1Bytes ms)

/-- UTF-8 bytes of one character (`str.encode()` is UTF-8). -/
def utf8Char (c : Char) : List Nat :=
  if c.toNat < 128 then [c.toNat]
  else if c.toNat < 2048 then [192 + c.toNat / 64, 128 + c.toNat % 64]
  else if c.toNat < 65536 then
    [224 + c.toNat / 4096, 128 + c.toNat / 64 % 64, 128 + c.toNat % 64]
  else
    [240 + c.toNat / 262144, 128 + c.toNat / 4096 % 64, 128 + c.toNat / 64 % 64,
     128 + c.toNat % 64]

/-- UTF-8 bytes of a character list. -/
def utf8Bytes (cs : List Char) : List Nat :=
  cs.foldr (fun c acc => utf8Char c ++ acc) []

/-- `_stable_id`: the docset id, a dash, and the first 24 hex characters of
the SHA-1 of `f"{docset_id}|{source}|{i}"` (UTF-8 encoded). -/
def stableId (docsetId source : String) (i : Nat) : String :=
  docsetId ++ "-" ++
    String.mk ((sha1Hex (utf8Bytes ((docsetId ++ "|" ++ source ++ "|" ++ Nat.repr i).data))).take 24)

/-- One stored collection row: document text plus the metadata written by
`add_document`. -/
structure ChunkRec where
  doc : List Char
  docsetId : String
  source : String
  chunk : Nat

/-- The ChromaDB collection, modelled as a map from id to stored row. -/
def ChromaIndex : Type :=
  String → Option ChunkRec

/-- The last row given for an id within one upsert call (last write wins). -/
def lastAssoc (ps : List (String × ChunkRec)) (k : String) : Option ChunkRec :=
  ps.foldl (fun acc p => if p.1 = k then some p.2 else acc) none

/-- `collection.upsert`: overwrite the row at each given id, leave every
other id unchanged. -/
def upsertPairs (st : ChromaIndex) (ps : List (String × ChunkRec)) : ChromaIndex :=
  fun k =>
    match lastAssoc ps k with
    | some v => some v
    | none => st k

/-- The `(id, document, metadata)` rows built by `add_document` from the
enumerated chunks. -/
def docPairs (docsetId source : String) (chunks : List (List Char)) :
    List (String × ChunkRec) :=
  chunks.enum.map (fun p => (stableId docsetId source p.1, ⟨p.2, docsetId, source, p.1⟩))

/-- `RAGIndex.add_document`: chunk the text, return 0 on no chunks, else
upsert the stable-id rows and return the chunk count. -/
def addDocument (st : ChromaIndex) (docsetId source text : String) : ChromaIndex × Nat :=
  if chunkText text.data = [] then (st, 0)
  else
    (upsertPairs st (docPairs docsetId source (chunkText text.data)),
     (chunkText text.data).length)

set_option maxRecDepth 100000 in
/-- SHA-1 known-answer test: the hex digest of `"abc"` matches FIPS 180. -/
theorem sha1Hex_kat :
    sha1Hex (utf8Bytes ("abc".data)) = "a9993e364706816aba3e25717850c26c9cd0d89d".data := by
  decide

set_option maxRecDepth 100000 in
/-- Known-answer test for the whole id: `stableId "doc" "src" 0` equals the
value `_stable_id("doc", "src", 0)` computes. -/
theorem stableId_kat :
    (stableId "doc" "src" 0).data = "doc-94e9feacbd5c4600d0a1f055".data := by
  decide

/-- The digest always has 20 bytes. -/
theorem digestBytes_length (t : Nat × Nat × Nat × Nat × Nat) :
    (digestBytes t).length = 20 := by
  rcases t with ⟨a, b, c, d, e⟩
  rfl

/-- Every digest byte is below 256. -/
theorem digestBytes_bound (t : Nat × Nat × Nat × Nat × Nat) :
    ∀ x ∈ digestBytes t, x < 256 := by
  rcases t with ⟨a, b, c, d, e⟩
  intro x hx
  simp only [digestBytes, wordBytes, List.mem_append, List.mem_cons,
    List.not_mem_nil, or_false] at hx
  omega

/-- Upserting the same rows twice gives the same collection as once. -/
theorem upsertPairs_idem (st : ChromaIndex) (ps : List (String × ChunkRec)) :
    upsertPairs (upsertPairs st ps) ps = upsertPairs st ps := by
  funext k
  cases h : lastAssoc ps k with
  | none => simp [upsertPairs, h]
  | some v => simp [upsertPairs, h]

/-- C7: `_stable_id` is a pure function of the triple (equal inputs give
equal ids), and running `add_document` twice on identical
`(docset_id, source, text)` upserts exactly the same rows, leaving the
collection state and the returned chunk count unchanged (re-indexing is an
idempotent no-op).  The further claim that distinct ordinals always give
distinct ids is refuted separately: the id keeps only 96 digest bits, so
collisions over all ordinals are forced by pigeonhole. -/
theorem c7_stableId_addDocument (d1 s1 d2 s2 : String) (i1 i2 : Nat)
    (hd : d1 = d2) (hs : s1 = s2) (hi : i1 = i2)
    (st : ChromaIndex) (ds src text : String) :
    stableId d1 s1 i1 = stableId d2 s2 i2 ∧
    (addDocument (addDocument st ds src text).1 ds src text).1
      = (addDocument st ds src text).1 ∧
    (addDocument (addDocument st ds src text).1 ds src text).2
      = (addDocument st ds src text).2 := by
  subst hd hs hi
  refine ⟨rfl, ?_, ?_⟩ <;> by_cases h : chunkText text.data = []
  · rw [addDocument, if_pos h, addDocument, if_pos h]
  · rw [addDocument, if_neg h]
    rw [addDocument, if_neg h]
    exact upsertPairs_idem st (docPairs ds src (chunkText text.data))
  · rw [addDocument, if_pos h, addDocument, if_pos h]
  · rw [addDocument, if_neg h]
    rw [addDocument, if_neg h]

/-- The format-string bytes hashed by `stableId "doc" "src" i`. -/
def c7Msg (i : Nat) : List Nat :=
  utf8Bytes (("doc" ++ "|" ++ "src" ++ "|" ++ Nat.repr i).data)

/-- The 20 digest bytes behind the id of ordinal `i`, as a point of a finite
type. -/
def c7Enc (i : Nat) : Fin 20 → Fin 256 :=
  fun k => ⟨(sha1Bytes (c7Msg i)).getD k 0 % 256, Nat.mod_lt _ (by norm_num)⟩

/-- C7 counterexample: distinct ordinals do not always give distinct ids —
the digests of the infinitely many ordinals live in the finite space of 20
byte values, so two distinct ordinals share a digest and hence a stable id. -/
theorem c7_counterexample :
    ¬ ∀ i j : Nat, i ≠ j → stableId "doc" "src" i ≠ stableId "doc" "src" j := by
  intro hinj
  obtain ⟨i, j, hne, heq⟩ := Finite.exists_ne_map_eq_of_infinite c7Enc
  refine hinj i j hne ?_
  have h1 : (sha1Bytes (c7Msg i)).length = 20 := digestBytes_length _
  have h2 : (sha1Bytes (c7Msg j)).length = 20 := digestBytes_length _
  have hdig : sha1Bytes (c7Msg i) = sha1Bytes (c7Msg j) := by
    apply List.ext_get (by rw [h1, h2])
    intro n hn1 hn2
    have hk : n < 20 := h1 ▸ hn1
    have hfe := congrFun heq ⟨n, hk⟩
    have hv : (sha1Bytes (c7Msg i)).getD n 0 % 256
        = (sha1Bytes (c7Msg j)).getD n 0 % 256 := congrArg Fin.val hfe
    rw [List.getD_eq_get _ _ hn1, List.getD_eq_get _ _ hn2] at hv
    have hbi : (sha1Bytes (c7Msg i)).get ⟨n, hn1⟩ < 256 :=
      digestBytes_bound _ _ (List.get_mem _ _ _)
    have hbj : (sha1Bytes (c7Msg j)).get ⟨n, hn2⟩ < 256 :=
      digestBytes_bound _ _ (List.get_mem _ _ _)
    rwa [Nat.mod_eq_of_lt hbi, Nat.mod_eq_of_lt hbj] at hv
  unfold c7Msg at hdig
  unfold stableId sha1Hex
  rw [hdig]

/-- An empty collection. -/
def emptyIndex : ChromaIndex :=
  fun _ => none

/-- C7 witness: the purity and idempotence theorem at a concrete docset,
source and text. -/
theorem c7_witness :
    stableId "job1" "a.txt" 0 = stableId "job1" "a.txt" 0 ∧
    (addDocument (addDocument emptyIndex "job1" "a.txt" "hello world").1
        "job1" "a.txt" "hello world").1
      = (addDocument emptyIndex "job1" "a.txt" "hello world").1 ∧
    (addDocument (addDocument emptyIndex "job1" "a.txt" "hello world").1
        "job1" "a.txt" "hello world").2
      = (addDocument emptyIndex "job1" "a.txt" "hello world").2 :=
  c7_stableId_addDocument "job1" "a.txt" "job1" "a.txt" 0 0 rfl rfl rfl
    emptyIndex "job1" "a.txt" "hello world"

end QuizSys
